import Mathlib

/-!
Verification of the chat system's reliability layer, packet codec and
server routing (files `protocol.py`, `reliability.py`, `server.py`),
as a shallow embedding in Lean.

Conventions of the embedding:
* Python `float` wall-clock times are modelled as integers (`ℤ`) —
  the code only ever subtracts and compares them; packet timestamps,
  which travel through the JSON codec, are rationals (`ℚ`).
* Python dicts are association lists with dict semantics: an update of an
  existing key replaces the value in place, an update of a fresh key
  appends, deletion filters the key out.
* Callback closures (`on_ack` / `on_timeout`) are modelled by string tags;
  an invocation of a callback is an explicit event in the event trace.
* `uuid.uuid4()` and `time.time()` are external inputs: every operation
  that the code performs at some wall-clock time takes that time as an
  explicit parameter, and freshly generated message ids are supplied as
  explicit arguments.
-/

/-- A network address `(ip, port)` as used by the UDP socket layer. -/
abbrev Addr := String × ℕ

/-- Wire strings of `protocol.MessageType`. -/
def msgMESSAGE : String := "message"

def msgPRIVATE : String := "private_message"

def msgACK : String := "ack"

def msgJOIN : String := "join"

def msgLEAVE : String := "leave"

def msgUSERLIST : String := "user_list"

def msgHEARTBEAT : String := "heartbeat"

def msgERROR : String := "error"

/-- The `Packet` dataclass of `protocol.py`: six fields, `recipient`
optional (defaulting to `None`). -/
structure Packet where
  message_type : String
  sender : String
  timestamp : ℚ
  message_id : String
  content : String
  recipient : Option String := none
  deriving Repr, DecidableEq

/-- JSON scalar values that occur in a serialized packet dict
(strings, numbers, `null`). -/
inductive JVal where
  | s (v : String)
  | n (v : ℚ)
  | null
  deriving Repr, DecidableEq

/-- A JSON object, as the association list produced by `json.loads` /
consumed by `json.dumps` (the `json` stdlib round-trips this structure
exactly; the repository's own codec logic is what is modelled here). -/
abbrev JObj := List (String × JVal)

/-- `Packet.to_json`: `json.dumps(asdict(self))` — the dict produced by
`asdict`, with field order, and `None` rendered as `null`. -/
def Packet.to_json (p : Packet) : JObj :=
  [("message_type", .s p.message_type),
   ("sender", .s p.sender),
   ("timestamp", .n p.timestamp),
   ("message_id", .s p.message_id),
   ("content", .s p.content),
   ("recipient", match p.recipient with | none => .null | some r => .s r)]

/-- Key lookup in a JSON object (first occurrence). -/
def jLookup (o : JObj) (k : String) : Option JVal :=
  (o.find? (fun kv => kv.1 == k)).map Prod.snd

/-- The field names accepted by the `Packet` constructor. -/
def packetFields : List String :=
  ["message_type", "sender", "timestamp", "message_id", "content", "recipient"]

/-- Extract a string field. -/
def JVal.asStr : Option JVal → Option String
  | some (.s v) => some v
  | _ => none

/-- Extract a numeric field. -/
def JVal.asNum : Option JVal → Option ℚ
  | some (.n v) => some v
  | _ => none

/-- `Packet.from_json`: `cls(**json.loads(json_str))`. The keyword call
fails (and `PacketParser.parse` returns `None`) when the dict holds a key
that is not a `Packet` field or misses a required field; `recipient` is
optional and defaults to `None`, with JSON `null` also decoding to `None`. -/
def Packet.from_json (o : JObj) : Option Packet :=
  if o.all (fun kv => packetFields.contains kv.1) then
    match JVal.asStr (jLookup o "message_type"), JVal.asStr (jLookup o "sender"),
          JVal.asNum (jLookup o "timestamp"), JVal.asStr (jLookup o "message_id"),
          JVal.asStr (jLookup o "content") with
    | some mt, some sd, some ts, some mid, some ct =>
      match jLookup o "recipient" with
      | none => some ⟨mt, sd, ts, mid, ct, none⟩
      | some .null => some ⟨mt, sd, ts, mid, ct, none⟩
      | some (.s r) => some ⟨mt, sd, ts, mid, ct, some r⟩
      | some (.n _) => none
    | _, _, _, _, _ => none
  else none

/-- Claim C5: for every valid Packet `p`, decoding the bytes produced by
encoding `p` yields a packet equal to `p` in all fields, including
distinguishing an absent recipient from a present one. -/
theorem c5_roundtrip (p : Packet) : Packet.from_json (Packet.to_json p) = some p := by
  cases p with
  | mk mt sd ts mid ct rc =>
    cases rc <;> rfl

/-!
## Association lists with Python dict semantics
-/

/-- Does the dict contain the key? (`k in d`) -/
def alContains {α : Type} (l : List (String × α)) (k : String) : Bool :=
  l.any (fun kv => kv.1 == k)

/-- Dict read (`d[k]` / `d.get(k)`), first occurrence. -/
def alLookup {α : Type} (l : List (String × α)) (k : String) : Option α :=
  (l.find? (fun kv => kv.1 == k)).map Prod.snd

/-- Dict write (`d[k] = v`): replace in place when the key is present
(so insertion order is preserved), append otherwise. -/
def alUpdate {α : Type} (l : List (String × α)) (k : String) (v : α) :
    List (String × α) :=
  if alContains l k then l.map (fun kv => if kv.1 == k then (k, v) else kv)
  else l ++ [(k, v)]

/-- Dict delete (`d.pop(k)` / `del d[k]`). -/
def alErase {α : Type} (l : List (String × α)) (k : String) : List (String × α) :=
  l.filter (fun kv => kv.1 != k)

theorem alLookup_eq_none {α : Type} {l : List (String × α)} {k : String} :
    alLookup l k = none ↔ ∀ kv ∈ l, kv.1 ≠ k := by
  simp [alLookup, List.find?_eq_none]

theorem alLookup_mem {α : Type} {l : List (String × α)} {k : String} {v : α}
    (h : alLookup l k = some v) : (k, v) ∈ l := by
  simp only [alLookup, Option.map_eq_some'] at h
  obtain ⟨kv, hf, hsnd⟩ := h
  have hk : kv.1 = k := by simpa using List.find?_some hf
  have hm := List.mem_of_find?_eq_some hf
  have : kv = (k, v) := by
    cases kv; simp_all
  rwa [this] at hm


theorem alLookup_map_self {α : Type} (l : List (String × α)) (k : String) (v : α)
    (hc : alContains l k = true) :
    alLookup (l.map (fun kv => if kv.1 == k then (k, v) else kv)) k = some v := by
  induction l with
  | nil => simp [alContains] at hc
  | cons kv rest ih =>
    by_cases hk : kv.1 = k
    · simp [alLookup, hk]
    · have hc' : alContains rest k = true := by
        simp only [alContains, List.any_cons, Bool.or_eq_true] at hc
        rcases hc with hc | hc
        · exact absurd (by simpa using hc) hk
        · simpa [alContains] using hc
      simpa [alLookup, hk] using ih hc'

theorem alLookup_map_ne {α : Type} (l : List (String × α)) (k k' : String) (v : α)
    (h : k' ≠ k) :
    alLookup (l.map (fun kv => if kv.1 == k then (k, v) else kv)) k' = alLookup l k' := by
  induction l with
  | nil => simp [alLookup]
  | cons kv rest ih =>
    by_cases hk : kv.1 = k
    · have h1 : ¬ (k = k') := Ne.symm h
      have h2 : ¬ (kv.1 = k') := by rw [hk]; exact h1
      simpa [alLookup, hk, h1, h2] using ih
    · by_cases hk' : kv.1 = k'
      · simp [alLookup, hk, hk', h]
      · simpa [alLookup, hk, hk'] using ih

theorem alLookup_append_single_ne {α : Type} (l : List (String × α)) (k k' : String)
    (v : α) (h : k' ≠ k) : alLookup (l ++ [(k, v)]) k' = alLookup l k' := by
  induction l with
  | nil => simp [alLookup, Ne.symm h]
  | cons kv rest ih =>
    by_cases hk' : kv.1 = k'
    · simp [alLookup, hk']
    · simpa [alLookup, hk'] using ih

theorem alLookup_update_self {α : Type} (l : List (String × α)) (k : String) (v : α) :
    alLookup (alUpdate l k v) k = some v := by
  unfold alUpdate
  by_cases hc : alContains l k
  · simpa [hc] using alLookup_map_self l k v hc
  · simp only [hc, if_false]
    induction l with
    | nil => simp [alLookup]
    | cons kv rest ih =>
      have hk : ¬ kv.1 = k := by
        intro hh
        exact hc (by simp [alContains, hh])
      have hc' : ¬ alContains rest k = true := by
        intro hh
        exact hc (by simp [alContains] at hh ⊢; right; simpa [alContains] using hh)
      simpa [alLookup, hk] using ih hc'

theorem alLookup_update_ne {α : Type} (l : List (String × α)) (k k' : String) (v : α)
    (h : k' ≠ k) : alLookup (alUpdate l k v) k' = alLookup l k' := by
  unfold alUpdate
  by_cases hc : alContains l k
  · simpa [hc] using alLookup_map_ne l k k' v h
  · simpa [hc] using alLookup_append_single_ne l k k' v h

theorem alLookup_erase_self {α : Type} (l : List (String × α)) (k : String) :
    alLookup (alErase l k) k = none := by
  rw [alLookup_eq_none]
  intro kv hm
  have := List.of_mem_filter hm
  simpa using this

theorem alLookup_erase_ne {α : Type} (l : List (String × α)) (k k' : String)
    (h : k' ≠ k) : alLookup (alErase l k) k' = alLookup l k' := by
  unfold alErase
  induction l with
  | nil => simp [alLookup]
  | cons kv rest ih =>
    by_cases hk : kv.1 = k
    · have h2 : ¬ (kv.1 = k') := by rw [hk]; exact Ne.symm h
      simpa [alLookup, hk, h2, Ne.symm h] using ih
    · by_cases hk' : kv.1 = k'
      · simp [alLookup, hk, hk', h]
      · simp only [alLookup, List.filter_cons, List.find?_cons]
        have hb : (kv.1 != k) = true := by simpa using hk
        have hb' : (kv.1 == k') = false := by simpa using hk'
        simp only [hb, hb', if_true]
        simp only [List.find?_cons, hb']
        simpa [alLookup] using ih

theorem mem_alUpdate {α : Type} {l : List (String × α)} {k : String} {v : α}
    {kv : String × α} (h : kv ∈ alUpdate l k v) : kv ∈ l ∨ kv = (k, v) := by
  unfold alUpdate at h
  by_cases hc : alContains l k = true
  · rw [if_pos hc] at h
    simp only [List.mem_map] at h
    obtain ⟨kv', hm, he⟩ := h
    by_cases hk : kv'.1 = k
    · right
      simp [hk] at he
      exact he.symm
    · left
      simp [hk] at he
      rwa [← he]
  · rw [if_neg hc] at h
    simp only [List.mem_append, List.mem_singleton] at h
    exact h

theorem mem_alErase {α : Type} {l : List (String × α)} {k : String}
    {kv : String × α} (h : kv ∈ alErase l k) : kv ∈ l :=
  List.mem_of_mem_filter h

/-!
## Reliable transport (`reliability.py`, class `ReliableUDP`)
-/

/-- Callback identity: a tag naming one Python closure. -/
abbrev Tag := String

/-- One value of `ReliableUDP.pending_messages`: the dict built in
`send_reliable` (packet, destination, last send time, retry count and the
two completion callbacks). -/
structure PendingSend where
  packet : Packet
  addr : Addr
  sent_time : ℤ
  retries : ℕ
  on_ack : Option Tag
  on_timeout : Option Tag
  deriving Repr, DecidableEq

/-- The mutable state of a `ReliableUDP` instance together with its
configuration (`ack_timeout`, `max_retries`). -/
structure RState where
  ack_timeout : ℤ := 3
  max_retries : ℕ := 3
  pending : List (String × PendingSend) := []
  deriving Repr, DecidableEq

/-- Observable events: a datagram handed to the socket, or an invocation
of an `on_ack` / `on_timeout` callback (with its arguments). -/
inductive Ev where
  | sent (p : Packet) (a : Addr)
  | ackFired (tag : Tag) (elapsed : ℤ) (retries : ℕ)
  | timeoutFired (tag : Tag) (retries : ℕ)
  deriving Repr, DecidableEq

/-- `ReliableUDP.send_reliable` at wall-clock time `t`: an ACK packet is
transmitted untracked; any other packet is registered in
`pending_messages` under its `message_id` (overwriting any existing
entry for that key) and then transmitted. -/
def sendReliable (s : RState) (t : ℤ) (p : Packet) (a : Addr)
    (on_ack on_timeout : Option Tag) : RState × List Ev :=
  if p.message_type = msgACK then (s, [.sent p a])
  else
    let e : PendingSend :=
      { packet := p, addr := a, sent_time := t, retries := 0,
        on_ack := on_ack, on_timeout := on_timeout }
    ({ s with pending := alUpdate s.pending p.message_id e }, [.sent p a])

/-- `ReliableUDP.handle_ack` at time `t`: the original message id is the
ACK packet's `content`; a matching PendingSend is popped and its `on_ack`
(when given) is invoked with `time.time() - pending['sent_time']` and the
retry count; otherwise nothing happens. -/
def handle_ack (s : RState) (t : ℤ) (ack_packet : Packet) : RState × List Ev :=
  match alLookup s.pending ack_packet.content with
  | none => (s, [])
  | some e =>
    ({ s with pending := alErase s.pending ack_packet.content },
     match e.on_ack with
     | some tag => [.ackFired tag (t - e.sent_time) e.retries]
     | none => [])

/-- The sweep's classification `current_time - pending['sent_time'] > self.ack_timeout`. -/
def isExpired (aT t : ℤ) (e : PendingSend) : Bool := decide (t - e.sent_time > aT)

/-- An entry the sweep retransmits: expired with retry budget left. -/
def isRetry (aT : ℤ) (mR : ℕ) (t : ℤ) (kv : String × PendingSend) : Bool :=
  isExpired aT t kv.2 && decide (kv.2.retries < mR)

/-- An entry the sweep times out: expired with the budget exhausted. -/
def isTimeout (aT : ℤ) (mR : ℕ) (t : ℤ) (kv : String × PendingSend) : Bool :=
  isExpired aT t kv.2 && ! decide (kv.2.retries < mR)

/-- Retransmission events of one sweep iteration, in pending order. -/
def retryEvs (aT : ℤ) (mR : ℕ) (t : ℤ) (l : List (String × PendingSend)) : List Ev :=
  (l.filter (isRetry aT mR t)).map (fun kv => Ev.sent kv.2.packet kv.2.addr)

/-- Timeout-callback events of one sweep iteration, in pending order;
a callback fires only when `on_timeout` was given. -/
def timeoutEvs (aT : ℤ) (mR : ℕ) (t : ℤ) (l : List (String × PendingSend)) : List Ev :=
  (l.filter (isTimeout aT mR t)).filterMap
    (fun kv => kv.2.on_timeout.map (fun tag => Ev.timeoutFired tag kv.2.retries))

/-- The pending dict after one sweep iteration: timed-out entries are
popped; retried entries get `retries + 1` and `sent_time = current_time`;
fresh entries are untouched. -/
def sweepPending (aT : ℤ) (mR : ℕ) (t : ℤ) (l : List (String × PendingSend)) :
    List (String × PendingSend) :=
  (l.filter (fun kv => ! isTimeout aT mR t kv)).map
    (fun kv => if isRetry aT mR t kv
               then (kv.1, { kv.2 with retries := kv.2.retries + 1, sent_time := t })
               else kv)

/-- One iteration of `ReliableUDP._check_timeouts` at time `t`
(`current_time` is read once at the top of the iteration): classify every
pending entry, retransmit the expired ones with budget left, then pop the
exhausted ones and fire their `on_timeout` callbacks. -/
def sweepStep (s : RState) (t : ℤ) : RState × List Ev :=
  ({ s with pending := sweepPending s.ack_timeout s.max_retries t s.pending },
   retryEvs s.ack_timeout s.max_retries t s.pending
     ++ timeoutEvs s.ack_timeout s.max_retries t s.pending)

/-- One serialized operation on a `ReliableUDP` instance, tagged with the
wall-clock time at which it runs (all three mutate `pending_messages`
under `self.lock`, so any interleaving is a sequence of these). -/
inductive Op where
  | send (t : ℤ) (p : Packet) (a : Addr) (on_ack on_timeout : Option Tag)
  | hack (t : ℤ) (p : Packet)
  | sweep (t : ℤ)
  deriving Repr, DecidableEq

/-- Apply one operation. -/
def applyOp (s : RState) : Op → RState × List Ev
  | .send t p a oa ot => sendReliable s t p a oa ot
  | .hack t p => handle_ack s t p
  | .sweep t => sweepStep s t

/-- Run a sequence of operations, accumulating the event trace. -/
def runOps (s : RState) : List Op → RState × List Ev
  | [] => (s, [])
  | o :: rest =>
    let r1 := applyOp s o
    let r2 := runOps r1.1 rest
    (r2.1, r1.2 ++ r2.2)

/-- Does this event invoke the send's `on_ack` callback `ca` or its
`on_timeout` callback `ct`? -/
def firesOf (ca ct : Tag) : Ev → Bool
  | .ackFired tag _ _ => tag == ca
  | .timeoutFired tag _ => tag == ct
  | .sent _ _ => false

/-- Number of invocations of either callback of one send in a trace. -/
def cnt (ca ct : Tag) (evs : List Ev) : ℕ := (evs.filter (firesOf ca ct)).length

theorem runOps_append (s : RState) (l1 l2 : List Op) :
    runOps s (l1 ++ l2) =
      ((runOps (runOps s l1).1 l2).1, (runOps s l1).2 ++ (runOps (runOps s l1).1 l2).2) := by
  induction l1 generalizing s with
  | nil => simp [runOps]
  | cons o rest ih =>
    simp [runOps, ih, List.append_assoc]

theorem cnt_append (ca ct : Tag) (l1 l2 : List Ev) :
    cnt ca ct (l1 ++ l2) = cnt ca ct l1 + cnt ca ct l2 := by
  simp [cnt]

/-- Number of `on_ack` invocations (of any send) in a trace. -/
def ackEvCount (evs : List Ev) : ℕ :=
  (evs.filter (fun e => match e with | .ackFired _ _ _ => true | _ => false)).length

/-- Claim C4: an ACK whose content names a message id with no matching
PendingSend changes no state and invokes no callback; hence handling the
same original id twice invokes the ack handler at most once. -/
theorem c4_duplicate_ack_noop (s : RState) (ack : Packet) (t1 t2 : ℤ) :
    (alLookup s.pending ack.content = none → handle_ack s t1 ack = (s, [])) ∧
    ackEvCount ((handle_ack s t1 ack).2
      ++ (handle_ack (handle_ack s t1 ack).1 t2 ack).2) ≤ 1 := by
  constructor
  · intro h
    simp [handle_ack, h]
  · cases h : alLookup s.pending ack.content with
    | none =>
      simp [handle_ack, h, ackEvCount]
    | some e =>
      have h2 : alLookup (handle_ack s t1 ack).1.pending ack.content = none := by
        simp [handle_ack, h, alLookup_erase_self]
      simp only [handle_ack, h] at *
      simp only [h2]
      cases e.on_ack <;> simp [ackEvCount, handle_ack, h2]

/-- Closed witness for C4 at a concrete state: a late ACK for an id that
is no longer pending is a no-op, and handling the same id twice fires the
ack handler once in total. -/
theorem c4_witness :
    (alLookup (RState.pending ⟨3, 3, []⟩) (Packet.content ⟨"ack", "b", 1, "a1", "m1", none⟩) = none →
      handle_ack ⟨3, 3, []⟩ 1 ⟨"ack", "b", 1, "a1", "m1", none⟩ = (⟨3, 3, []⟩, [])) ∧
    ackEvCount ((handle_ack ⟨3, 3, []⟩ 1 ⟨"ack", "b", 1, "a1", "m1", none⟩).2
      ++ (handle_ack (handle_ack ⟨3, 3, []⟩ 1 ⟨"ack", "b", 1, "a1", "m1", none⟩).1 2
            ⟨"ack", "b", 1, "a1", "m1", none⟩).2) ≤ 1 :=
  c4_duplicate_ack_noop ⟨3, 3, []⟩ ⟨"ack", "b", 1, "a1", "m1", none⟩ 1 2

/-- Keys of a dict are pairwise distinct (Python dict invariant). -/
def keysNodup {α : Type} (l : List (String × α)) : Prop := (l.map Prod.fst).Nodup

theorem alLookup_cons {α : Type} (a : String) (b : α) (rest : List (String × α))
    (k : String) :
    alLookup ((a, b) :: rest) k = if a = k then some b else alLookup rest k := by
  by_cases h : a = k <;> simp [alLookup, h]

theorem sweepPending_cons (aT : ℤ) (mR : ℕ) (t : ℤ) (kv : String × PendingSend)
    (l : List (String × PendingSend)) :
    sweepPending aT mR t (kv :: l) =
      if isTimeout aT mR t kv then sweepPending aT mR t l
      else (if isRetry aT mR t kv
            then (kv.1, { kv.2 with retries := kv.2.retries + 1, sent_time := t })
            else kv) :: sweepPending aT mR t l := by
  by_cases h : isTimeout aT mR t kv <;> simp [sweepPending, h]

theorem retryEvs_cons (aT : ℤ) (mR : ℕ) (t : ℤ) (kv : String × PendingSend)
    (l : List (String × PendingSend)) :
    retryEvs aT mR t (kv :: l) =
      if isRetry aT mR t kv then Ev.sent kv.2.packet kv.2.addr :: retryEvs aT mR t l
      else retryEvs aT mR t l := by
  by_cases h : isRetry aT mR t kv <;> simp [retryEvs, h]

theorem timeoutEvs_cons (aT : ℤ) (mR : ℕ) (t : ℤ) (kv : String × PendingSend)
    (l : List (String × PendingSend)) :
    timeoutEvs aT mR t (kv :: l) =
      if isTimeout aT mR t kv
      then (kv.2.on_timeout.map (fun tag => Ev.timeoutFired tag kv.2.retries)).toList
            ++ timeoutEvs aT mR t l
      else timeoutEvs aT mR t l := by
  by_cases h : isTimeout aT mR t kv
  · cases ht : kv.2.on_timeout <;> simp [timeoutEvs, h, ht]
  · simp [timeoutEvs, h]

theorem sweepPending_lookup_none (aT : ℤ) (mR : ℕ) (t : ℤ)
    (l : List (String × PendingSend)) (k : String) (h : alLookup l k = none) :
    alLookup (sweepPending aT mR t l) k = none := by
  rw [alLookup_eq_none] at h ⊢
  intro kv hm
  unfold sweepPending at hm
  simp only [List.mem_map, List.mem_filter] at hm
  obtain ⟨kv', ⟨hm', _⟩, he⟩ := hm
  have hk : kv.1 = kv'.1 := by
    by_cases hr : isRetry aT mR t kv' <;> simp [hr] at he <;> rw [← he]
  rw [hk]
  exact h kv' hm'

theorem sweepPending_lookup_live (aT : ℤ) (mR : ℕ) (t : ℤ)
    (l : List (String × PendingSend)) (k : String) (e : PendingSend)
    (he : alLookup l k = some e) (hnt : isTimeout aT mR t (k, e) = false) :
    alLookup (sweepPending aT mR t l) k =
      some (if isRetry aT mR t (k, e)
            then { e with retries := e.retries + 1, sent_time := t } else e) := by
  induction l with
  | nil => simp [alLookup] at he
  | cons kv rest ih =>
    obtain ⟨a, b⟩ := kv
    rw [alLookup_cons] at he
    by_cases hk : a = k
    · rw [if_pos hk] at he
      injection he with hbe
      subst hbe
      subst hk
      rw [sweepPending_cons]
      have hnt' : ¬ isTimeout aT mR t (a, b) = true := by simp [hnt]
      rw [if_neg hnt']
      by_cases hr : isRetry aT mR t (a, b) = true
      · rw [if_pos hr, alLookup_cons, if_pos rfl, if_pos hr]
      · rw [if_neg hr, alLookup_cons, if_pos rfl, if_neg hr]
    · rw [if_neg hk] at he
      rw [sweepPending_cons]
      by_cases ht : isTimeout aT mR t (a, b) = true
      · rw [if_pos ht]
        exact ih he
      · rw [if_neg ht]
        by_cases hr : isRetry aT mR t (a, b) = true
        · rw [if_pos hr, alLookup_cons, if_neg hk]
          exact ih he
        · rw [if_neg hr, alLookup_cons, if_neg hk]
          exact ih he

theorem sweepPending_lookup_timeout (aT : ℤ) (mR : ℕ) (t : ℤ)
    (l : List (String × PendingSend)) (k : String) (e : PendingSend)
    (hN : keysNodup l) (he : alLookup l k = some e)
    (ht : isTimeout aT mR t (k, e) = true) :
    alLookup (sweepPending aT mR t l) k = none := by
  induction l with
  | nil => simp [alLookup] at he
  | cons kv rest ih =>
    obtain ⟨a, b⟩ := kv
    rw [alLookup_cons] at he
    have hN' : keysNodup rest := by
      simpa [keysNodup] using (List.nodup_cons.mp hN).2
    by_cases hk : a = k
    · rw [if_pos hk] at he
      injection he with hbe
      subst hbe
      subst hk
      rw [sweepPending_cons, if_pos ht]
      apply sweepPending_lookup_none
      rw [alLookup_eq_none]
      intro kv' hm' hkk
      exact (by simpa [keysNodup] using (List.nodup_cons.mp hN).1 : a ∉ rest.map Prod.fst)
        (List.mem_map.mpr ⟨kv', hm', hkk⟩)
    · rw [if_neg hk] at he
      rw [sweepPending_cons]
      by_cases htt : isTimeout aT mR t (a, b) = true
      · rw [if_pos htt]
        exact ih hN' he
      · rw [if_neg htt]
        by_cases hr : isRetry aT mR t (a, b) = true
        · rw [if_pos hr, alLookup_cons, if_neg hk]
          exact ih hN' he
        · rw [if_neg hr, alLookup_cons, if_neg hk]
          exact ih hN' he

/-- Claim C3 (amended): when `handle_ack` finds a PendingSend whose
message id matches the original id in the ACK packet's content, it removes
the entry and invokes its `on_ack` handler with the elapsed time since the
MOST RECENT (re)transmission of the packet — not since the first send,
because the retry sweep resets the entry's `sent_time` to the sweep's
current time on every retransmission — together with its retry count. -/
theorem c3_ack_elapsed_amended (s : RState) (t u : ℤ) (ack : Packet)
    (e : PendingSend) (tag : Tag)
    (he : alLookup s.pending ack.content = some e) (htag : e.on_ack = some tag) :
    handle_ack s t ack =
      ({ s with pending := alErase s.pending ack.content },
       [.ackFired tag (t - e.sent_time) e.retries]) ∧
    (isRetry s.ack_timeout s.max_retries u (ack.content, e) = true →
      alLookup (sweepStep s u).1.pending ack.content =
        some { e with retries := e.retries + 1, sent_time := u }) := by
  constructor
  · simp [handle_ack, he, htag]
  · intro hr
    have hnt : isTimeout s.ack_timeout s.max_retries u (ack.content, e) = false := by
      simp only [isRetry, Bool.and_eq_true] at hr
      simp [isTimeout, hr.1, hr.2]
    simpa [sweepStep, hr] using
      sweepPending_lookup_live s.ack_timeout s.max_retries u s.pending ack.content e he hnt

/-- Closed witness for C3 (amended): a pending entry whose last
retransmission was at time 4, acknowledged at time 5, fires `on_ack` with
elapsed time 1, and a sweep at time 9 would have reset its `sent_time` to 9. -/
theorem c3_witness :
    handle_ack
      ⟨3, 3, [("m1", ⟨⟨"message", "alice", 0, "m1", "hi", none⟩,
                      ("127.0.0.1", 6000), 4, 1, some "ca", some "ct"⟩)]⟩ 5
      ⟨"ack", "bob", 5, "a9", "m1", none⟩ =
      ({ (⟨3, 3, [("m1", ⟨⟨"message", "alice", 0, "m1", "hi", none⟩,
                      ("127.0.0.1", 6000), 4, 1, some "ca", some "ct"⟩)]⟩ : RState) with
          pending := alErase [("m1", ⟨⟨"message", "alice", 0, "m1", "hi", none⟩,
                      ("127.0.0.1", 6000), 4, 1, some "ca", some "ct"⟩)] "m1" },
       [.ackFired "ca" (5 - 4) 1]) ∧
    (isRetry 3 3 9 ("m1", ⟨⟨"message", "alice", 0, "m1", "hi", none⟩,
                      ("127.0.0.1", 6000), 4, 1, some "ca", some "ct"⟩) = true →
      alLookup (sweepStep
        ⟨3, 3, [("m1", ⟨⟨"message", "alice", 0, "m1", "hi", none⟩,
                      ("127.0.0.1", 6000), 4, 1, some "ca", some "ct"⟩)]⟩ 9).1.pending "m1" =
        some ⟨⟨"message", "alice", 0, "m1", "hi", none⟩,
              ("127.0.0.1", 6000), 9, 2, some "ca", some "ct"⟩) :=
  c3_ack_elapsed_amended
    ⟨3, 3, [("m1", ⟨⟨"message", "alice", 0, "m1", "hi", none⟩,
                    ("127.0.0.1", 6000), 4, 1, some "ca", some "ct"⟩)]⟩ 5 9
    ⟨"ack", "bob", 5, "a9", "m1", none⟩
    ⟨⟨"message", "alice", 0, "m1", "hi", none⟩,
     ("127.0.0.1", 6000), 4, 1, some "ca", some "ct"⟩ "ca" (by decide) (by decide)

/-- Claim C3 (counterexample): send a packet at time 0 (ack timeout 3);
the sweep at time 4 retransmits it; an ACK arrives at time 5. The code
invokes `on_ack` with elapsed time 1 (since the retransmission at time 4),
not 5 (the elapsed time since the FIRST send at time 0 that the claim
requires). -/
theorem c3_counterexample :
    (runOps ⟨3, 3, []⟩
      [.send 0 ⟨"message", "alice", 0, "m1", "hi", none⟩ ("127.0.0.1", 6000)
          (some "ca") (some "ct"),
       .sweep 4,
       .hack 5 ⟨"ack", "bob", 5, "a9", "m1", none⟩]).2 =
      [.sent ⟨"message", "alice", 0, "m1", "hi", none⟩ ("127.0.0.1", 6000),
       .sent ⟨"message", "alice", 0, "m1", "hi", none⟩ ("127.0.0.1", 6000),
       .ackFired "ca" 1 1] ∧
    (1 : ℤ) ≠ 5 - 0 := by
  constructor
  · decide
  · decide

/-!
## Callback-tracking invariants over operation traces
-/

theorem mem_alUpdate_eq_key {α : Type} {l : List (String × α)} {k : String} {v : α}
    {kv : String × α} (h : kv ∈ alUpdate l k v) (hk : kv.1 = k) : kv = (k, v) := by
  unfold alUpdate at h
  by_cases hc : alContains l k = true
  · rw [if_pos hc] at h
    simp only [List.mem_map] at h
    obtain ⟨kv', _, he⟩ := h
    by_cases hk' : kv'.1 = k
    · simp only [hk', if_pos] at he
      simp [hk'] at he
      exact he.symm
    · simp [hk'] at he
      rw [← he] at hk
      exact absurd hk hk'
  · rw [if_neg hc] at h
    simp only [List.mem_append, List.mem_singleton] at h
    rcases h with h | h
    · exfalso
      apply hc
      simp only [alContains, List.any_eq_true]
      exact ⟨kv, h, by simpa using hk⟩
    · exact h

theorem mem_alUpdate_ne_key {α : Type} {l : List (String × α)} {k : String} {v : α}
    {kv : String × α} (h : kv ∈ alUpdate l k v) (hk : kv.1 ≠ k) : kv ∈ l := by
  rcases mem_alUpdate h with h' | h'
  · exact h'
  · exact absurd (by rw [h']) hk

theorem keysNodup_alUpdate {α : Type} {l : List (String × α)} (k : String) (v : α)
    (hN : keysNodup l) : keysNodup (alUpdate l k v) := by
  unfold alUpdate
  by_cases hc : alContains l k = true
  · rw [if_pos hc]
    have : List.map Prod.fst (l.map (fun kv => if kv.1 == k then (k, v) else kv)) =
        List.map Prod.fst l := by
      rw [List.map_map]
      apply List.map_congr_left
      intro kv _
      by_cases hk : kv.1 = k <;> simp [hk]
    unfold keysNodup
    rw [this]
    exact hN
  · rw [if_neg hc]
    unfold keysNodup
    rw [List.map_append]
    simp only [List.map_cons, List.map_nil]
    rw [List.nodup_append]
    refine ⟨hN, List.nodup_singleton k, ?_⟩
    intro x hx
    simp only [List.mem_singleton]
    intro hxx
    subst hxx
    apply hc
    simp only [List.mem_map] at hx
    obtain ⟨kv, hm, hk⟩ := hx
    simp only [alContains, List.any_eq_true]
    exact ⟨kv, hm, by simpa using hk⟩

theorem keysNodup_alErase {α : Type} {l : List (String × α)} (k : String)
    (hN : keysNodup l) : keysNodup (alErase l k) := by
  unfold keysNodup alErase
  exact List.Nodup.sublist (List.Sublist.map Prod.fst (List.filter_sublist l)) hN

theorem keysNodup_sweepPending {l : List (String × PendingSend)} (aT : ℤ) (mR : ℕ)
    (t : ℤ) (hN : keysNodup l) : keysNodup (sweepPending aT mR t l) := by
  unfold keysNodup sweepPending
  have hmap : List.map Prod.fst
      ((l.filter (fun kv => ! isTimeout aT mR t kv)).map
        (fun kv => if isRetry aT mR t kv
                   then (kv.1, { kv.2 with retries := kv.2.retries + 1, sent_time := t })
                   else kv)) =
      List.map Prod.fst (l.filter (fun kv => ! isTimeout aT mR t kv)) := by
    rw [List.map_map]
    apply List.map_congr_left
    intro kv _
    by_cases hk : isRetry aT mR t kv = true <;> simp [hk]
  rw [hmap]
  exact List.Nodup.sublist (List.Sublist.map Prod.fst (List.filter_sublist l)) hN

theorem mem_sweepPending {l : List (String × PendingSend)} {aT : ℤ} {mR : ℕ}
    {t : ℤ} {kv : String × PendingSend} (h : kv ∈ sweepPending aT mR t l) :
    ∃ kv' ∈ l, kv.1 = kv'.1 ∧ kv.2.on_ack = kv'.2.on_ack ∧
      kv.2.on_timeout = kv'.2.on_timeout := by
  unfold sweepPending at h
  simp only [List.mem_map, List.mem_filter] at h
  obtain ⟨kv', ⟨hm, _⟩, he⟩ := h
  refine ⟨kv', hm, ?_⟩
  by_cases hr : isRetry aT mR t kv' = true
  · rw [if_pos hr] at he
    rw [← he]
    exact ⟨rfl, rfl, rfl⟩
  · rw [if_neg hr] at he
    rw [← he]
    exact ⟨rfl, rfl, rfl⟩

/-- The callbacks of this PendingSend are not those of the observed send. -/
def PendingSend.cleanFor (e : PendingSend) (ca ct : Tag) : Prop :=
  e.on_ack ≠ some ca ∧ e.on_timeout ≠ some ct

/-- No pending entry carries the observed send's callbacks. -/
def RState.cleanFor (s : RState) (ca ct : Tag) : Prop :=
  ∀ kv ∈ s.pending, kv.2.cleanFor ca ct

/-- The operation does not register the observed send's callbacks anew. -/
def Op.cleanFor (o : Op) (ca ct : Tag) : Prop :=
  match o with
  | .send _ _ _ oa ot => oa ≠ some ca ∧ ot ≠ some ct
  | _ => True

/-- The operation does not register a fresh pending entry under `id`. -/
def Op.avoids (o : Op) (id : String) : Prop :=
  match o with
  | .send _ p _ _ _ => p.message_type = msgACK ∨ p.message_id ≠ id
  | _ => True

instance (o : Op) (ca ct : Tag) : Decidable (Op.cleanFor o ca ct) := by
  cases o <;> simp [Op.cleanFor] <;> infer_instance

instance (o : Op) (id : String) : Decidable (Op.avoids o id) := by
  cases o <;> simp [Op.avoids] <;> infer_instance

theorem cnt_retryEvs_zero (ca ct : Tag) (aT : ℤ) (mR : ℕ) (t : ℤ)
    (l : List (String × PendingSend)) : cnt ca ct (retryEvs aT mR t l) = 0 := by
  induction l with
  | nil => simp [cnt, retryEvs]
  | cons kv rest ih =>
    rw [retryEvs_cons]
    by_cases hr : isRetry aT mR t kv = true
    · rw [if_pos hr]
      simpa [cnt, firesOf] using ih
    · rw [if_neg hr]
      exact ih

theorem cnt_timeoutEvs_zero (ca ct : Tag) (aT : ℤ) (mR : ℕ) (t : ℤ)
    (l : List (String × PendingSend))
    (hc : ∀ kv ∈ l, kv.2.on_timeout ≠ some ct) :
    cnt ca ct (timeoutEvs aT mR t l) = 0 := by
  induction l with
  | nil => simp [cnt, timeoutEvs]
  | cons kv rest ih =>
    have ih' := ih (fun kv' hm => hc kv' (List.mem_cons_of_mem kv hm))
    rw [timeoutEvs_cons]
    by_cases ht : isTimeout aT mR t kv = true
    · rw [if_pos ht]
      rw [cnt_append]
      cases hot : kv.2.on_timeout with
      | none => simpa [cnt, hot] using ih'
      | some tag =>
        have : tag ≠ ct := by
          intro hh
          exact hc kv (List.mem_cons_self kv rest) (by rw [hot, hh])
        simpa [cnt, hot, firesOf, this] using ih'
    · rw [if_neg ht]
      exact ih'

theorem clean_applyOp (s : RState) (o : Op) (ca ct : Tag)
    (hs : s.cleanFor ca ct) (ho : o.cleanFor ca ct) :
    (applyOp s o).1.cleanFor ca ct ∧ cnt ca ct (applyOp s o).2 = 0 := by
  cases o with
  | send t p a oa ot =>
    by_cases hpt : p.message_type = msgACK
    · simp only [applyOp, sendReliable, hpt, if_pos]
      exact ⟨hs, by simp [cnt, firesOf]⟩
    · simp only [applyOp, sendReliable, hpt, if_neg, if_false]
      constructor
      · intro kv hm
        rcases mem_alUpdate hm with h' | h'
        · exact hs kv h'
        · rw [h']
          exact ⟨ho.1, ho.2⟩
      · simp [cnt, firesOf]
  | hack t q =>
    cases hl : alLookup s.pending q.content with
    | none =>
      simp only [applyOp, handle_ack, hl]
      exact ⟨hs, by simp [cnt]⟩
    | some e =>
      simp only [applyOp, handle_ack, hl]
      constructor
      · intro kv hm
        exact hs kv (mem_alErase hm)
      · cases hoa : e.on_ack with
        | none => simp [cnt]
        | some tag =>
          have : tag ≠ ca := by
            intro hh
            exact (hs (q.content, e) (alLookup_mem hl)).1 (by rw [hoa, hh])
          simp [cnt, firesOf, this]
  | sweep t =>
    simp only [applyOp, sweepStep]
    constructor
    · intro kv hm
      obtain ⟨kv', hm', _, hoa, hot⟩ := mem_sweepPending hm
      have := hs kv' hm'
      exact ⟨by rw [hoa]; exact this.1, by rw [hot]; exact this.2⟩
    · rw [cnt_append, cnt_retryEvs_zero, cnt_timeoutEvs_zero]
      intro kv hm
      exact (hs kv hm).2

theorem clean_runOps (s : RState) (ops : List Op) (ca ct : Tag)
    (hs : s.cleanFor ca ct) (hops : ∀ o ∈ ops, o.cleanFor ca ct) :
    (runOps s ops).1.cleanFor ca ct ∧ cnt ca ct (runOps s ops).2 = 0 := by
  induction ops generalizing s with
  | nil => exact ⟨hs, by simp [runOps, cnt]⟩
  | cons o rest ih =>
    have h1 := clean_applyOp s o ca ct hs (hops o (List.mem_cons_self o rest))
    have h2 := ih (applyOp s o).1 h1.1 (fun o' hm => hops o' (List.mem_cons_of_mem o hm))
    simp only [runOps]
    exact ⟨h2.1, by rw [cnt_append, h1.2, h2.2]⟩

theorem applyOp_config (s : RState) (o : Op) :
    (applyOp s o).1.ack_timeout = s.ack_timeout ∧
      (applyOp s o).1.max_retries = s.max_retries := by
  cases o with
  | send t p a oa ot =>
    by_cases h : p.message_type = msgACK <;> simp [applyOp, sendReliable, h]
  | hack t q =>
    cases hl : alLookup s.pending q.content <;> simp [applyOp, handle_ack, hl]
  | sweep t => simp [applyOp, sweepStep]

theorem runOps_config (s : RState) (ops : List Op) :
    (runOps s ops).1.ack_timeout = s.ack_timeout ∧
      (runOps s ops).1.max_retries = s.max_retries := by
  induction ops generalizing s with
  | nil => exact ⟨rfl, rfl⟩
  | cons o rest ih =>
    simp only [runOps]
    have h1 := applyOp_config s o
    have h2 := ih (applyOp s o).1
    exact ⟨h2.1.trans h1.1, h2.2.trans h1.2⟩

theorem cnt_timeoutEvs_tracked (ca ct : Tag) (aT : ℤ) (mR : ℕ) (t : ℤ)
    (l : List (String × PendingSend)) (id : String) (e : PendingSend)
    (hN : keysNodup l) (hoc : ∀ kv ∈ l, kv.1 ≠ id → kv.2.cleanFor ca ct)
    (he : alLookup l id = some e) (hct : e.on_timeout = some ct) :
    cnt ca ct (timeoutEvs aT mR t l) =
      if isTimeout aT mR t (id, e) = true then 1 else 0 := by
  induction l with
  | nil => simp [alLookup] at he
  | cons kv rest ih =>
    obtain ⟨a, b⟩ := kv
    rw [alLookup_cons] at he
    have hN' : keysNodup rest := by
      simpa [keysNodup] using (List.nodup_cons.mp hN).2
    by_cases hk : a = id
    · rw [if_pos hk] at he
      injection he with hbe
      subst hbe
      subst hk
      have hrest0 : cnt ca ct (timeoutEvs aT mR t rest) = 0 := by
        apply cnt_timeoutEvs_zero
        intro kv' hm'
        have hk' : kv'.1 ≠ a := by
          intro hh
          exact (by simpa [keysNodup] using (List.nodup_cons.mp hN).1 :
            a ∉ rest.map Prod.fst) (List.mem_map.mpr ⟨kv', hm', hh⟩)
        exact (hoc kv' (List.mem_cons_of_mem (a, b) hm') hk').2
      rw [timeoutEvs_cons]
      by_cases hT : isTimeout aT mR t (a, b) = true
      · rw [if_pos hT, if_pos hT, cnt_append, hrest0]
        simp [cnt, firesOf, hct]
      · rw [if_neg hT, if_neg hT, hrest0]
    · rw [if_neg hk] at he
      have hcl : (a, b).2.cleanFor ca ct :=
        hoc (a, b) (List.mem_cons_self (a, b) rest) hk
      have ih' := ih hN'
        (fun kv' hm' hk' => hoc kv' (List.mem_cons_of_mem (a, b) hm') hk') he
      rw [timeoutEvs_cons]
      by_cases hT : isTimeout aT mR t (a, b) = true
      · rw [if_pos hT, cnt_append]
        cases hot : (a, b).2.on_timeout with
        | none => simpa [cnt, hot] using ih'
        | some tag =>
          have : tag ≠ ct := by
            intro hh
            exact hcl.2 (by rw [hot, hh])
          simpa [cnt, hot, firesOf, this] using ih'
      · rw [if_neg hT]
        exact ih'

/-- Invariant tracking one send's PendingSend entry and the total number
`n` of its callback invocations so far: either the entry is still pending
(under its message id, with its two callbacks, retry count within budget)
and no callback has fired, or the entry is gone and exactly one callback
has fired. All other pending entries carry other callbacks. -/
def trackedState (id : String) (ca ct : Tag) (s : RState) (n : ℕ) : Prop :=
  keysNodup s.pending ∧
  (∀ kv ∈ s.pending, kv.1 ≠ id → kv.2.cleanFor ca ct) ∧
  ((∃ e, alLookup s.pending id = some e ∧ e.on_ack = some ca ∧
      e.on_timeout = some ct ∧ e.retries ≤ s.max_retries ∧ n = 0) ∨
   (alLookup s.pending id = none ∧ n = 1))

theorem tracked_applyOp (id : String) (ca ct : Tag) (s : RState) (n : ℕ) (o : Op)
    (hs : trackedState id ca ct s n) (ho : o.cleanFor ca ct) (ha : o.avoids id) :
    trackedState id ca ct (applyOp s o).1 (n + cnt ca ct (applyOp s o).2) := by
  obtain ⟨hN, hoc, hmain⟩ := hs
  cases o with
  | send t p a oa ot =>
    by_cases hpt : p.message_type = msgACK
    · simp only [applyOp, sendReliable, hpt, if_pos]
      refine ⟨hN, hoc, ?_⟩
      simpa [cnt, firesOf] using hmain
    · have hid : p.message_id ≠ id := by
        rcases ha with ha | ha
        · exact absurd ha hpt
        · exact ha
      simp only [applyOp, sendReliable, hpt, if_false]
      have hc0 : cnt ca ct [Ev.sent p a] = 0 := by simp [cnt, firesOf]
      refine ⟨keysNodup_alUpdate _ _ hN, ?_, ?_⟩
      · intro kv hm hk
        by_cases hkp : kv.1 = p.message_id
        · rw [mem_alUpdate_eq_key hm hkp]
          exact ⟨ho.1, ho.2⟩
        · exact hoc kv (mem_alUpdate_ne_key hm hkp) hk
      · rcases hmain with ⟨e, hl, h1, h2, h3, h4⟩ | ⟨hl, h4⟩
        · left
          refine ⟨e, ?_, h1, h2, h3, ?_⟩
          · rw [alLookup_update_ne _ _ _ _ (Ne.symm hid)]
            exact hl
          · rw [hc0, h4]
        · right
          refine ⟨?_, ?_⟩
          · rw [alLookup_update_ne _ _ _ _ (Ne.symm hid)]
            exact hl
          · rw [hc0, h4]
  | hack t q =>
    cases hl : alLookup s.pending q.content with
    | none =>
      simp only [applyOp, handle_ack, hl]
      refine ⟨hN, hoc, ?_⟩
      simpa [cnt] using hmain
    | some e =>
      by_cases hqc : q.content = id
      · subst hqc
        rcases hmain with ⟨e', hl', h1, h2, h3, h4⟩ | ⟨hl', h4⟩
        · have hee : e = e' := by
            rw [hl] at hl'
            injection hl'
          subst hee
          simp only [applyOp, handle_ack, hl, h1]
          refine ⟨keysNodup_alErase _ hN, ?_, ?_⟩
          · intro kv hm hk
            exact hoc kv (mem_alErase hm) hk
          · right
            refine ⟨alLookup_erase_self _ _, ?_⟩
            rw [h4]
            simp [cnt, firesOf]
        · rw [hl] at hl'
          exact absurd hl' (by simp)
      · have hcl : e.cleanFor ca ct := hoc (q.content, e) (alLookup_mem hl) hqc
        cases hoa : e.on_ack with
        | none =>
          simp only [applyOp, handle_ack, hl, hoa]
          refine ⟨keysNodup_alErase _ hN, ?_, ?_⟩
          · intro kv hm hk
            exact hoc kv (mem_alErase hm) hk
          · rcases hmain with ⟨e', hl', h1, h2, h3, h4⟩ | ⟨hl', h4⟩
            · left
              refine ⟨e', ?_, h1, h2, h3, ?_⟩
              · rw [alLookup_erase_ne _ _ _ (Ne.symm hqc)]
                exact hl'
              · rw [h4]
                simp [cnt]
            · right
              refine ⟨?_, ?_⟩
              · rw [alLookup_erase_ne _ _ _ (Ne.symm hqc)]
                exact hl'
              · rw [h4]
                simp [cnt]
        | some tag =>
          have htag : tag ≠ ca := by
            intro hh
            exact hcl.1 (by rw [hoa, hh])
          simp only [applyOp, handle_ack, hl, hoa]
          have hc0 : cnt ca ct [Ev.ackFired tag (t - e.sent_time) e.retries] = 0 := by
            simp [cnt, firesOf, htag]
          refine ⟨keysNodup_alErase _ hN, ?_, ?_⟩
          · intro kv hm hk
            exact hoc kv (mem_alErase hm) hk
          · rcases hmain with ⟨e', hl', h1, h2, h3, h4⟩ | ⟨hl', h4⟩
            · left
              refine ⟨e', ?_, h1, h2, h3, ?_⟩
              · rw [alLookup_erase_ne _ _ _ (Ne.symm hqc)]
                exact hl'
              · rw [hc0, h4]
            · right
              refine ⟨?_, ?_⟩
              · rw [alLookup_erase_ne _ _ _ (Ne.symm hqc)]
                exact hl'
              · rw [hc0, h4]
  | sweep t =>
    simp only [applyOp, sweepStep]
    have hocN : ∀ kv ∈ sweepPending s.ack_timeout s.max_retries t s.pending,
        kv.1 ≠ id → kv.2.cleanFor ca ct := by
      intro kv hm hk
      obtain ⟨kv', hm', hkeq, hoa, hot⟩ := mem_sweepPending hm
      have hcl := hoc kv' hm' (by rw [← hkeq]; exact hk)
      exact ⟨by rw [hoa]; exact hcl.1, by rw [hot]; exact hcl.2⟩
    refine ⟨keysNodup_sweepPending _ _ _ hN, hocN, ?_⟩
    rcases hmain with ⟨e, hl, h1, h2, h3, h4⟩ | ⟨hl, h4⟩
    · have hto := cnt_timeoutEvs_tracked ca ct s.ack_timeout s.max_retries t
        s.pending id e hN hoc hl h2
      by_cases hT : isTimeout s.ack_timeout s.max_retries t (id, e) = true
      · right
        refine ⟨sweepPending_lookup_timeout _ _ _ _ _ _ hN hl hT, ?_⟩
        rw [cnt_append, cnt_retryEvs_zero, hto, if_pos hT, h4]
      · left
        refine ⟨if isRetry s.ack_timeout s.max_retries t (id, e)
                then { e with retries := e.retries + 1, sent_time := t } else e,
                sweepPending_lookup_live _ _ _ _ _ _ hl (by simpa using hT),
                ?_, ?_, ?_, ?_⟩
        · by_cases hr : isRetry s.ack_timeout s.max_retries t (id, e) = true <;>
            simp [hr, h1]
        · by_cases hr : isRetry s.ack_timeout s.max_retries t (id, e) = true <;>
            simp [hr, h2]
        · by_cases hr : isRetry s.ack_timeout s.max_retries t (id, e) = true
          · rw [if_pos hr]
            have : e.retries < s.max_retries := by
              simp only [isRetry, Bool.and_eq_true, decide_eq_true_eq] at hr
              exact hr.2
            simpa using this
          · rw [if_neg hr]
            exact h3
        · rw [cnt_append, cnt_retryEvs_zero, hto, if_neg hT, h4]
    · right
      refine ⟨sweepPending_lookup_none _ _ _ _ _ hl, ?_⟩
      have h0 : cnt ca ct (timeoutEvs s.ack_timeout s.max_retries t s.pending) = 0 := by
        apply cnt_timeoutEvs_zero
        intro kv hm
        exact (hoc kv hm (alLookup_eq_none.mp hl kv hm)).2
      rw [cnt_append, cnt_retryEvs_zero, h0, h4]

theorem tracked_runOps (id : String) (ca ct : Tag) (s : RState) (n : ℕ) (ops : List Op)
    (hs : trackedState id ca ct s n)
    (hops : ∀ o ∈ ops, o.cleanFor ca ct ∧ o.avoids id) :
    trackedState id ca ct (runOps s ops).1 (n + cnt ca ct (runOps s ops).2) := by
  induction ops generalizing s n with
  | nil => simpa [runOps, cnt] using hs
  | cons o rest ih =>
    have h1 := tracked_applyOp id ca ct s n o hs
      (hops o (List.mem_cons_self o rest)).1 (hops o (List.mem_cons_self o rest)).2
    have h2 := ih (applyOp s o).1 (n + cnt ca ct (applyOp s o).2) h1
      (fun o' hm => hops o' (List.mem_cons_of_mem o hm))
    simp only [runOps]
    rw [cnt_append, ← Nat.add_assoc]
    exact h2

/-- `k` consecutive retry-sweep iterations, the first at `t0 + D` and each
`D` apart (the running `_check_timeouts` thread observed at `k` ticks). -/
def sweepSched (t0 D : ℤ) : ℕ → List Op
  | 0 => []
  | k + 1 => Op.sweep (t0 + D) :: sweepSched (t0 + D) D k

theorem sweepSched_ops (t0 D : ℤ) (k : ℕ) (ca ct : Tag) (id : String) :
    ∀ o ∈ sweepSched t0 D k, Op.cleanFor o ca ct ∧ Op.avoids o id := by
  induction k generalizing t0 with
  | zero => simp [sweepSched]
  | succ k ih =>
    intro o hm
    simp only [sweepSched, List.mem_cons] at hm
    rcases hm with hm | hm
    · subst hm
      exact ⟨trivial, trivial⟩
    · exact ih (t0 + D) o hm

theorem sweeps_preserve_none (s : RState) (t0 D : ℤ) (k : ℕ) (id : String)
    (h : alLookup s.pending id = none) :
    alLookup (runOps s (sweepSched t0 D k)).1.pending id = none := by
  induction k generalizing s t0 with
  | zero => simpa [sweepSched, runOps] using h
  | succ k ih =>
    simp only [sweepSched, runOps]
    exact ih _ _ (sweepPending_lookup_none _ _ _ _ _ h)

/-- If an entry is pending with its retry budget not yet exhausted beyond
`max_retries`, then enough spaced sweep ticks (each more than the ack
timeout after the previous transmission) remove it. -/
theorem sched_removes (s : RState) (t0 D : ℤ) (id : String) (e : PendingSend) (k : ℕ)
    (hN : keysNodup s.pending)
    (he : alLookup s.pending id = some e)
    (hst : e.sent_time ≤ t0)
    (hD : s.ack_timeout < D)
    (hr : e.retries ≤ s.max_retries)
    (hk : s.max_retries < k + e.retries) :
    alLookup (runOps s (sweepSched t0 D k)).1.pending id = none := by
  induction k generalizing s t0 e with
  | zero => omega
  | succ k ih =>
    simp only [sweepSched, runOps]
    have hexp : isExpired s.ack_timeout (t0 + D) e = true := by
      simp only [isExpired, decide_eq_true_eq]
      omega
    by_cases hrr : e.retries < s.max_retries
    · have hR : isRetry s.ack_timeout s.max_retries (t0 + D) (id, e) = true := by
        simp [isRetry, hexp, hrr]
      have hnT : isTimeout s.ack_timeout s.max_retries (t0 + D) (id, e) = false := by
        simp [isTimeout, hexp, hrr]
      have hlu := sweepPending_lookup_live s.ack_timeout s.max_retries (t0 + D)
        s.pending id e he hnT
      rw [if_pos hR] at hlu
      have := ih (applyOp s (Op.sweep (t0 + D))).1 (t0 + D)
        { e with retries := e.retries + 1, sent_time := t0 + D }
        (keysNodup_sweepPending _ _ _ hN) hlu (le_refl _) hD (by simpa using hrr)
        (by simp only [applyOp, sweepStep]; omega)
      simpa [applyOp, sweepStep] using this
    · have hT : isTimeout s.ack_timeout s.max_retries (t0 + D) (id, e) = true := by
        simp [isTimeout, hexp, hrr]
      have hlu := sweepPending_lookup_timeout s.ack_timeout s.max_retries (t0 + D)
        s.pending id e hN he hT
      exact sweeps_preserve_none _ _ _ _ _ hlu

theorem tracked_after_send (s : RState) (t : ℤ) (p : Packet) (a : Addr) (ca ct : Tag)
    (hp : p.message_type ≠ msgACK)
    (hN : keysNodup s.pending)
    (hclean : RState.cleanFor s ca ct) :
    trackedState p.message_id ca ct (sendReliable s t p a (some ca) (some ct)).1 0 := by
  simp only [sendReliable, hp, if_false]
  refine ⟨keysNodup_alUpdate _ _ hN, ?_, ?_⟩
  · intro kv hm hk
    exact hclean kv (mem_alUpdate_ne_key hm hk)
  · left
    exact ⟨_, alLookup_update_self _ _ _, rfl, rfl, Nat.zero_le _, rfl⟩

/-- Claim C1 (amended): for a `send_reliable` call with a non-ACK packet
whose callbacks are fresh and whose `message_id` is not re-registered by
any later `send_reliable` call, the two callbacks `on_ack`/`on_timeout`
fire at most once in total over any continuation; exactly once by the time
the pending entry is gone; and if the entry is still pending after an
arbitrary continuation, letting the retry sweep keep running (ticks spaced
beyond the ack timeout) brings the total to exactly once. Without the
no-reuse proviso the claim is false (see the C10 overwrite behaviour). -/
theorem c1_exactly_once (s : RState) (t D : ℤ) (p : Packet) (a : Addr) (ca ct : Tag)
    (post : List Op)
    (hp : p.message_type ≠ msgACK)
    (hN : keysNodup s.pending)
    (hclean : RState.cleanFor s ca ct)
    (hops : ∀ o ∈ post, Op.cleanFor o ca ct ∧ Op.avoids o p.message_id)
    (hD : s.ack_timeout < D) :
    cnt ca ct ((sendReliable s t p a (some ca) (some ct)).2 ++
        (runOps (sendReliable s t p a (some ca) (some ct)).1 post).2) ≤ 1 ∧
    (alLookup (runOps (sendReliable s t p a (some ca) (some ct)).1 post).1.pending
        p.message_id = none →
      cnt ca ct ((sendReliable s t p a (some ca) (some ct)).2 ++
        (runOps (sendReliable s t p a (some ca) (some ct)).1 post).2) = 1) ∧
    (∀ e, alLookup (runOps (sendReliable s t p a (some ca) (some ct)).1 post).1.pending
        p.message_id = some e →
      cnt ca ct ((sendReliable s t p a (some ca) (some ct)).2 ++
        (runOps (sendReliable s t p a (some ca) (some ct)).1 post).2 ++
        (runOps (runOps (sendReliable s t p a (some ca) (some ct)).1 post).1
          (sweepSched e.sent_time D (s.max_retries + 1))).2) = 1) := by
  have hev1 : cnt ca ct (sendReliable s t p a (some ca) (some ct)).2 = 0 := by
    simp only [sendReliable, hp, if_false]
    simp [cnt, firesOf]
  have h0 := tracked_after_send s t p a ca ct hp hN hclean
  have hrun := tracked_runOps p.message_id ca ct
    (sendReliable s t p a (some ca) (some ct)).1 0 post h0 hops
  simp only [Nat.zero_add] at hrun
  obtain ⟨hN2, hoc2, hmain2⟩ := hrun
  have hcfg := runOps_config (sendReliable s t p a (some ca) (some ct)).1 post
  have hcfgS : (sendReliable s t p a (some ca) (some ct)).1.ack_timeout = s.ack_timeout ∧
      (sendReliable s t p a (some ca) (some ct)).1.max_retries = s.max_retries := by
    simp [sendReliable, hp]
  refine ⟨?_, ?_, ?_⟩
  · rw [cnt_append, hev1]
    rcases hmain2 with ⟨e, _, _, _, _, h4⟩ | ⟨_, h4⟩ <;> omega
  · intro hnone
    rw [cnt_append, hev1]
    rcases hmain2 with ⟨e, hl, _, _, _, h4⟩ | ⟨_, h4⟩
    · rw [hnone] at hl
      exact absurd hl (by simp)
    · omega
  · intro e hsome
    rcases hmain2 with ⟨e', hl, h1, h2, h3, h4⟩ | ⟨hl, h4⟩
    · have hee : e' = e := by
        rw [hsome] at hl
        injection hl with hl'
        exact hl'.symm
      subst hee
      have hrem := sched_removes
        (runOps (sendReliable s t p a (some ca) (some ct)).1 post).1
        e'.sent_time D p.message_id e' (s.max_retries + 1)
        hN2 hsome (le_refl _)
        (by rw [hcfg.1, hcfgS.1]; exact hD)
        h3
        (by rw [hcfg.2, hcfgS.2] at h3 ⊢; omega)
      have hrun2 := tracked_runOps p.message_id ca ct
        (runOps (sendReliable s t p a (some ca) (some ct)).1 post).1 0
        (sweepSched e'.sent_time D (s.max_retries + 1))
        ⟨hN2, hoc2, Or.inl ⟨e', hsome, h1, h2, h3, rfl⟩⟩
        (sweepSched_ops _ _ _ _ _ _)
      simp only [Nat.zero_add] at hrun2
      obtain ⟨_, _, hmain3⟩ := hrun2
      rcases hmain3 with ⟨e'', hl3, _, _, _, h43⟩ | ⟨hl3, h43⟩
      · rw [hrem] at hl3
        exact absurd hl3 (by simp)
      · rw [cnt_append, cnt_append, hev1, h4, h43]
    · rw [hsome] at hl
      exact absurd hl (by simp)

/-- Closed witness for C1: a fresh send at time 0 (ack timeout 3,
max 3 retries) followed by a matching ACK at time 1; sweep spacing 4. -/
theorem c1_witness :
    cnt "ca" "ct" ((sendReliable ⟨3, 3, []⟩ 0 ⟨"message", "alice", 0, "m1", "hi", none⟩
        ("127.0.0.1", 6000) (some "ca") (some "ct")).2 ++
      (runOps (sendReliable ⟨3, 3, []⟩ 0 ⟨"message", "alice", 0, "m1", "hi", none⟩
          ("127.0.0.1", 6000) (some "ca") (some "ct")).1
        [Op.hack 1 ⟨"ack", "bob", 1, "a9", "m1", none⟩]).2) ≤ 1 ∧
    (alLookup (runOps (sendReliable ⟨3, 3, []⟩ 0 ⟨"message", "alice", 0, "m1", "hi", none⟩
          ("127.0.0.1", 6000) (some "ca") (some "ct")).1
        [Op.hack 1 ⟨"ack", "bob", 1, "a9", "m1", none⟩]).1.pending "m1" = none →
      cnt "ca" "ct" ((sendReliable ⟨3, 3, []⟩ 0 ⟨"message", "alice", 0, "m1", "hi", none⟩
          ("127.0.0.1", 6000) (some "ca") (some "ct")).2 ++
        (runOps (sendReliable ⟨3, 3, []⟩ 0 ⟨"message", "alice", 0, "m1", "hi", none⟩
            ("127.0.0.1", 6000) (some "ca") (some "ct")).1
          [Op.hack 1 ⟨"ack", "bob", 1, "a9", "m1", none⟩]).2) = 1) ∧
    (∀ e, alLookup (runOps (sendReliable ⟨3, 3, []⟩ 0
            ⟨"message", "alice", 0, "m1", "hi", none⟩
            ("127.0.0.1", 6000) (some "ca") (some "ct")).1
          [Op.hack 1 ⟨"ack", "bob", 1, "a9", "m1", none⟩]).1.pending "m1" = some e →
      cnt "ca" "ct" ((sendReliable ⟨3, 3, []⟩ 0 ⟨"message", "alice", 0, "m1", "hi", none⟩
          ("127.0.0.1", 6000) (some "ca") (some "ct")).2 ++
        (runOps (sendReliable ⟨3, 3, []⟩ 0 ⟨"message", "alice", 0, "m1", "hi", none⟩
            ("127.0.0.1", 6000) (some "ca") (some "ct")).1
          [Op.hack 1 ⟨"ack", "bob", 1, "a9", "m1", none⟩]).2 ++
        (runOps (runOps (sendReliable ⟨3, 3, []⟩ 0
              ⟨"message", "alice", 0, "m1", "hi", none⟩
              ("127.0.0.1", 6000) (some "ca") (some "ct")).1
            [Op.hack 1 ⟨"ack", "bob", 1, "a9", "m1", none⟩]).1
          (sweepSched e.sent_time 4 (3 + 1))).2) = 1) :=
  c1_exactly_once ⟨3, 3, []⟩ 0 4 ⟨"message", "alice", 0, "m1", "hi", none⟩
    ("127.0.0.1", 6000) "ca" "ct" [Op.hack 1 ⟨"ack", "bob", 1, "a9", "m1", none⟩]
    (by decide) (by simp [keysNodup]) (by simp [RState.cleanFor]) (by decide) (by decide)

/-- Claim C1 (counterexample): the claim as stated fails when a later
`send_reliable` call reuses the same `message_id` — exactly what the
server's broadcasts do. Two sends register id "m1"; the ACK completes
only the second registration (firing "ca2"); four spaced sweep ticks
(enough to exhaust any entry, `max_retries = 3`) find nothing. The first
call's callbacks "ca1"/"ct1" fire zero times — not exactly once — and the
pending set ends empty, so no continuation can ever fire them. -/
theorem c1_counterexample :
    cnt "ca1" "ct1" (runOps ⟨3, 3, []⟩
      [.send 0 ⟨"message", "alice", 0, "m1", "hi", none⟩ ("10.0.0.1", 1)
          (some "ca1") (some "ct1"),
       .send 0 ⟨"message", "alice", 0, "m1", "hi", none⟩ ("10.0.0.2", 2)
          (some "ca2") (some "ct2"),
       .hack 1 ⟨"ack", "bob", 1, "a1", "m1", none⟩,
       .sweep 5, .sweep 10, .sweep 15, .sweep 20]).2 = 0 ∧
    (runOps ⟨3, 3, []⟩
      [.send 0 ⟨"message", "alice", 0, "m1", "hi", none⟩ ("10.0.0.1", 1)
          (some "ca1") (some "ct1"),
       .send 0 ⟨"message", "alice", 0, "m1", "hi", none⟩ ("10.0.0.2", 2)
          (some "ca2") (some "ct2"),
       .hack 1 ⟨"ack", "bob", 1, "a1", "m1", none⟩,
       .sweep 5, .sweep 10, .sweep 15, .sweep 20]).1.pending = [] := by
  constructor
  · decide
  · decide

theorem runOps_cons (s : RState) (o : Op) (rest : List Op) :
    runOps s (o :: rest) =
      ((runOps (applyOp s o).1 rest).1,
       (applyOp s o).2 ++ (runOps (applyOp s o).1 rest).2) := rfl

theorem applyOp_sweep (s : RState) (t : ℤ) :
    applyOp s (Op.sweep t) = sweepStep s t := rfl

theorem applyOp_send (s : RState) (t : ℤ) (p : Packet) (a : Addr)
    (oa ot : Option Tag) :
    applyOp s (Op.send t p a oa ot) = sendReliable s t p a oa ot := rfl

theorem single_entry_sched (aT D : ℤ) (mR : ℕ) (ct : Tag) :
    ∀ (j : ℕ) (t0 : ℤ) (id : String) (e : PendingSend),
      aT < D → e.sent_time ≤ t0 → e.retries ≤ mR → mR - e.retries = j →
      e.on_timeout = some ct →
      runOps ⟨aT, mR, [(id, e)]⟩ (sweepSched t0 D (j + 1)) =
        (⟨aT, mR, []⟩,
         List.replicate j (Ev.sent e.packet e.addr) ++ [Ev.timeoutFired ct mR]) := by
  intro j
  induction j with
  | zero =>
    intro t0 id e hD hst hr hj hct
    have hrm : e.retries = mR := by omega
    have hexp : isExpired aT (t0 + D) e = true := by
      simp only [isExpired, decide_eq_true_eq]
      omega
    have hRf : isRetry aT mR (t0 + D) (id, e) = false := by
      simp only [isRetry, hexp, Bool.true_and, decide_eq_false_iff_not]
      omega
    have hTt : isTimeout aT mR (t0 + D) (id, e) = true := by
      simp only [isTimeout, hexp, Bool.true_and, Bool.not_eq_true',
        decide_eq_false_iff_not]
      omega
    have hstep : sweepStep ⟨aT, mR, [(id, e)]⟩ (t0 + D) =
        (⟨aT, mR, []⟩, [Ev.timeoutFired ct e.retries]) := by
      simp [sweepStep, retryEvs, timeoutEvs, sweepPending, List.filter_cons,
        hRf, hTt, hct]
    show runOps ⟨aT, mR, [(id, e)]⟩ [Op.sweep (t0 + D)] = _
    simp [runOps, applyOp, hstep, hrm]
  | succ j ih =>
    intro t0 id e hD hst hr hj hct
    have hrr : e.retries < mR := by omega
    have hexp : isExpired aT (t0 + D) e = true := by
      simp only [isExpired, decide_eq_true_eq]
      omega
    have hRt : isRetry aT mR (t0 + D) (id, e) = true := by
      simp only [isRetry, hexp, Bool.true_and, decide_eq_true_eq]
      omega
    have hTf : isTimeout aT mR (t0 + D) (id, e) = false := by
      simp [isTimeout, hexp, hrr]
    have hstep : sweepStep ⟨aT, mR, [(id, e)]⟩ (t0 + D) =
        (⟨aT, mR, [(id, { e with retries := e.retries + 1, sent_time := t0 + D })]⟩,
         [Ev.sent e.packet e.addr]) := by
      simp [sweepStep, retryEvs, timeoutEvs, sweepPending, List.filter_cons,
        hRt, hTf]
    have ihs := ih (t0 + D) id { e with retries := e.retries + 1, sent_time := t0 + D }
      hD (le_refl _) (by simpa using hrr)
      (by show mR - (e.retries + 1) = j; omega) (by simpa using hct)
    show runOps ⟨aT, mR, [(id, e)]⟩
        (Op.sweep (t0 + D) :: sweepSched (t0 + D) D (j + 1)) = _
    rw [runOps_cons, applyOp_sweep, hstep]
    dsimp only
    rw [ihs]
    simp [List.replicate_succ]

theorem alUpdate_nil {α : Type} (k : String) (v : α) :
    alUpdate ([] : List (String × α)) k v = [(k, v)] := by
  simp [alUpdate, alContains]

/-- Claim C2: starting with no other pending traffic, a reliable send of a
non-ACK packet for which no matching ACK ever arrives, with the retry
sweep running (ticks spaced beyond the ack timeout), produces exactly: the
initial transmission, `max_retries` retransmissions of the SAME packet
(same `message_id`), and one `on_timeout` invocation with
`retries_performed = max_retries`; the pending entry is gone afterwards,
so a later `handle_ack` for that id is a complete no-op. -/
theorem c2_bounded_retries (aT D t t' : ℤ) (mR : ℕ) (p : Packet) (a : Addr)
    (ca ct : Tag) (ackp : Packet)
    (hp : p.message_type ≠ msgACK) (hD : aT < D) :
    (runOps ⟨aT, mR, []⟩
        (Op.send t p a (some ca) (some ct) :: sweepSched t D (mR + 1))).2 =
      Ev.sent p a :: (List.replicate mR (Ev.sent p a) ++ [Ev.timeoutFired ct mR]) ∧
    (runOps ⟨aT, mR, []⟩
        (Op.send t p a (some ca) (some ct) :: sweepSched t D (mR + 1))).1.pending = [] ∧
    handle_ack (runOps ⟨aT, mR, []⟩
        (Op.send t p a (some ca) (some ct) :: sweepSched t D (mR + 1))).1 t' ackp =
      ((runOps ⟨aT, mR, []⟩
          (Op.send t p a (some ca) (some ct) :: sweepSched t D (mR + 1))).1, []) := by
  have hsend : sendReliable ⟨aT, mR, []⟩ t p a (some ca) (some ct) =
      (⟨aT, mR, [(p.message_id,
        { packet := p, addr := a, sent_time := t, retries := 0,
          on_ack := some ca, on_timeout := some ct })]⟩, [Ev.sent p a]) := by
    simp [sendReliable, hp, alUpdate_nil]
  have hrest := single_entry_sched aT D mR ct mR t p.message_id
    { packet := p, addr := a, sent_time := t, retries := 0,
      on_ack := some ca, on_timeout := some ct }
    hD (le_refl _) (Nat.zero_le _) (by simp) rfl
  have hrun : runOps ⟨aT, mR, []⟩
      (Op.send t p a (some ca) (some ct) :: sweepSched t D (mR + 1)) =
      (⟨aT, mR, []⟩,
       Ev.sent p a :: (List.replicate mR (Ev.sent p a) ++ [Ev.timeoutFired ct mR])) := by
    rw [runOps_cons, applyOp_send, hsend]
    dsimp only
    rw [hrest]
    simp
  refine ⟨by rw [hrun], by rw [hrun], ?_⟩
  rw [hrun]
  simp [handle_ack, alLookup]

/-- Closed witness for C2: ack timeout 3, 2 retries max, send at time 0,
sweep ticks at 4, 8, 12; a late ACK probes the emptied pending set. -/
theorem c2_witness :
    (runOps ⟨3, 2, []⟩
        (Op.send 0 ⟨"message", "alice", 0, "m1", "hi", none⟩ ("127.0.0.1", 6000)
            (some "ca") (some "ct") :: sweepSched 0 4 (2 + 1))).2 =
      Ev.sent ⟨"message", "alice", 0, "m1", "hi", none⟩ ("127.0.0.1", 6000) ::
        (List.replicate 2 (Ev.sent ⟨"message", "alice", 0, "m1", "hi", none⟩
            ("127.0.0.1", 6000)) ++ [Ev.timeoutFired "ct" 2]) ∧
    (runOps ⟨3, 2, []⟩
        (Op.send 0 ⟨"message", "alice", 0, "m1", "hi", none⟩ ("127.0.0.1", 6000)
            (some "ca") (some "ct") :: sweepSched 0 4 (2 + 1))).1.pending = [] ∧
    handle_ack (runOps ⟨3, 2, []⟩
        (Op.send 0 ⟨"message", "alice", 0, "m1", "hi", none⟩ ("127.0.0.1", 6000)
            (some "ca") (some "ct") :: sweepSched 0 4 (2 + 1))).1 100
        ⟨"ack", "bob", 100, "a9", "m1", none⟩ =
      ((runOps ⟨3, 2, []⟩
          (Op.send 0 ⟨"message", "alice", 0, "m1", "hi", none⟩ ("127.0.0.1", 6000)
              (some "ca") (some "ct") :: sweepSched 0 4 (2 + 1))).1, []) :=
  c2_bounded_retries 3 4 0 100 2 ⟨"message", "alice", 0, "m1", "hi", none⟩
    ("127.0.0.1", 6000) "ca" "ct" ⟨"ack", "bob", 100, "a9", "m1", none⟩
    (by decide) (by decide)

/-- Claim C10: a `send_reliable` call with a non-ACK packet whose
`message_id` already keys a PendingSend silently replaces that entry: the
replaced entry's callbacks are never invoked by any continuation, and
only the most recently registered destination and callbacks remain
tracked for that id. -/
theorem c10_overwrite (s : RState) (t1 t2 : ℤ) (p1 p2 : Packet) (a1 a2 : Addr)
    (ca1 ct1 ca2 ct2 : Tag) (post : List Op)
    (hp1 : p1.message_type ≠ msgACK) (hp2 : p2.message_type ≠ msgACK)
    (hid : p2.message_id = p1.message_id)
    (hclean : RState.cleanFor s ca1 ct1)
    (hca : ca2 ≠ ca1) (hct : ct2 ≠ ct1)
    (hops : ∀ o ∈ post, Op.cleanFor o ca1 ct1) :
    alLookup (sendReliable (sendReliable s t1 p1 a1 (some ca1) (some ct1)).1
        t2 p2 a2 (some ca2) (some ct2)).1.pending p1.message_id =
      some { packet := p2, addr := a2, sent_time := t2, retries := 0,
             on_ack := some ca2, on_timeout := some ct2 } ∧
    cnt ca1 ct1 ((sendReliable s t1 p1 a1 (some ca1) (some ct1)).2 ++
      (sendReliable (sendReliable s t1 p1 a1 (some ca1) (some ct1)).1
        t2 p2 a2 (some ca2) (some ct2)).2 ++
      (runOps (sendReliable (sendReliable s t1 p1 a1 (some ca1) (some ct1)).1
        t2 p2 a2 (some ca2) (some ct2)).1 post).2) = 0 := by
  have hs2 : (sendReliable (sendReliable s t1 p1 a1 (some ca1) (some ct1)).1
      t2 p2 a2 (some ca2) (some ct2)).1.pending =
      alUpdate (alUpdate s.pending p1.message_id
        { packet := p1, addr := a1, sent_time := t1, retries := 0,
          on_ack := some ca1, on_timeout := some ct1 }) p2.message_id
        { packet := p2, addr := a2, sent_time := t2, retries := 0,
          on_ack := some ca2, on_timeout := some ct2 } := by
    simp [sendReliable, hp1, hp2]
  constructor
  · rw [hs2, ← hid]
    exact alLookup_update_self _ _ _
  · have hcl2 : (sendReliable (sendReliable s t1 p1 a1 (some ca1) (some ct1)).1
        t2 p2 a2 (some ca2) (some ct2)).1.cleanFor ca1 ct1 := by
      intro kv hm
      rw [hs2] at hm
      by_cases hk2 : kv.1 = p2.message_id
      · rw [mem_alUpdate_eq_key hm hk2]
        exact ⟨by simpa using hca, by simpa using hct⟩
      · have hm1 := mem_alUpdate_ne_key hm hk2
        have hk1 : kv.1 ≠ p1.message_id := by
          rw [← hid]
          exact hk2
        exact hclean kv (mem_alUpdate_ne_key hm1 hk1)
    have hrun := clean_runOps _ post ca1 ct1 hcl2 hops
    have hev1 : cnt ca1 ct1 (sendReliable s t1 p1 a1 (some ca1) (some ct1)).2 = 0 := by
      simp [sendReliable, hp1, cnt, firesOf]
    have hev2 : cnt ca1 ct1 (sendReliable
        (sendReliable s t1 p1 a1 (some ca1) (some ct1)).1
        t2 p2 a2 (some ca2) (some ct2)).2 = 0 := by
      simp [sendReliable, hp2, cnt, firesOf]
    rw [cnt_append, cnt_append, hev1, hev2, hrun.2]

/-- Closed witness for C10: the user-list broadcast pattern — the same
packet sent to two destinations in a row, then an ACK and a sweep. -/
theorem c10_witness :
    alLookup (sendReliable (sendReliable ⟨3, 3, []⟩ 0
        ⟨"message", "alice", 0, "m1", "hi", none⟩ ("10.0.0.1", 1)
        (some "ca1") (some "ct1")).1
        0 ⟨"message", "alice", 0, "m1", "hi", none⟩ ("10.0.0.2", 2)
        (some "ca2") (some "ct2")).1.pending "m1" =
      some { packet := ⟨"message", "alice", 0, "m1", "hi", none⟩,
             addr := ("10.0.0.2", 2), sent_time := 0, retries := 0,
             on_ack := some "ca2", on_timeout := some "ct2" } ∧
    cnt "ca1" "ct1" ((sendReliable ⟨3, 3, []⟩ 0
        ⟨"message", "alice", 0, "m1", "hi", none⟩ ("10.0.0.1", 1)
        (some "ca1") (some "ct1")).2 ++
      (sendReliable (sendReliable ⟨3, 3, []⟩ 0
        ⟨"message", "alice", 0, "m1", "hi", none⟩ ("10.0.0.1", 1)
        (some "ca1") (some "ct1")).1
        0 ⟨"message", "alice", 0, "m1", "hi", none⟩ ("10.0.0.2", 2)
        (some "ca2") (some "ct2")).2 ++
      (runOps (sendReliable (sendReliable ⟨3, 3, []⟩ 0
        ⟨"message", "alice", 0, "m1", "hi", none⟩ ("10.0.0.1", 1)
        (some "ca1") (some "ct1")).1
        0 ⟨"message", "alice", 0, "m1", "hi", none⟩ ("10.0.0.2", 2)
        (some "ca2") (some "ct2")).1
        [Op.hack 1 ⟨"ack", "bob", 1, "a1", "m1", none⟩, Op.sweep 10]).2) = 0 :=
  c10_overwrite ⟨3, 3, []⟩ 0 0 ⟨"message", "alice", 0, "m1", "hi", none⟩
    ⟨"message", "alice", 0, "m1", "hi", none⟩ ("10.0.0.1", 1) ("10.0.0.2", 2)
    "ca1" "ct1" "ca2" "ct2"
    [Op.hack 1 ⟨"ack", "bob", 1, "a1", "m1", none⟩, Op.sweep 10]
    (by decide) (by decide) (by decide) (by simp [RState.cleanFor])
    (by decide) (by decide) (by decide)

/-!
## Chat server (`server.py`, class `ChatServer`)
-/

/-- `ChatServer` mutable state: the registry (`clients`), last-seen map,
message counter and the owned `ReliableUDP` instance. -/
structure SState where
  clients : List (String × Addr) := []
  client_last_seen : List (String × ℤ) := []
  message_count : ℕ := 0
  rudp : RState := {}
  deriving Repr, DecidableEq

/-- `Packet.create_ack("server", original_message_id)` with the fresh
uuid and creation time supplied. -/
def create_ack (newId : String) (t : ℤ) (original_message_id : String) : Packet :=
  { message_type := msgACK, sender := "server", timestamp := (t : ℚ),
    message_id := newId, content := original_message_id }

/-- `Packet.create_message("server", content)` with the fresh uuid and
creation time supplied. -/
def create_server_message (newId : String) (t : ℤ) (content : String) : Packet :=
  { message_type := msgMESSAGE, sender := "server", timestamp := (t : ℚ),
    message_id := newId, content := content }

/-- `json.dumps` of the users dict (username -> (ip, port) tuple), with
Python's default separators. -/
def renderUsers (users : List (String × Addr)) : String :=
  "\x7b" ++ String.intercalate ", "
    (users.map (fun kv =>
      "\"" ++ kv.1 ++ "\": [\"" ++ kv.2.1 ++ "\", " ++ toString kv.2.2 ++ "]"))
    ++ "\x7d"

/-- `Packet.create_user_list("server", users)`. -/
def create_user_list (newId : String) (t : ℤ) (users : List (String × Addr)) : Packet :=
  { message_type := msgUSERLIST, sender := "server", timestamp := (t : ℚ),
    message_id := newId, content := renderUsers users }

/-- Tag of the `on_ack` closure captured for one broadcast destination. -/
def bAckTag (u : String) : Tag := "on_ack:" ++ u

/-- Tag of the `on_timeout` closure captured for one broadcast destination. -/
def bToTag (u : String) : Tag := "on_timeout:" ++ u

/-- Tag of the `on_ack` closure of a private-message forward. -/
def pmAckTag (rc : String) : Tag := "pm_on_ack:" ++ rc

/-- Tag of the `on_timeout` closure of a private-message forward. -/
def pmToTag (rc : String) : Tag := "pm_on_timeout:" ++ rc

/-- A loop of `send_reliable` calls over a list of destinations, with
per-destination callback tags, threading the `ReliableUDP` state. -/
def foldSends (t : ℤ) (p : Packet) (mkA mkT : String → Option Tag) :
    RState → List (String × Addr) → RState × List Ev
  | r, [] => (r, [])
  | r, (u, a) :: rest =>
    let r1 := sendReliable r t p a (mkA u) (mkT u)
    let r2 := foldSends t p mkA mkT r1.1 rest
    (r2.1, r1.2 ++ r2.2)

/-- `ChatServer._broadcast_message`: reliably send `p` to every client
whose username differs from `exclude` (`None` excludes nobody), with the
per-username callback closures. -/
def broadcast_message (s : SState) (t : ℤ) (p : Packet) (exclude : Option String) :
    SState × List Ev :=
  let targets := s.clients.filter (fun kv => decide (some kv.1 ≠ exclude))
  let r := foldSends t p (fun u => some (bAckTag u)) (fun u => some (bToTag u))
    s.rudp targets
  ({ s with rudp := r.1 }, r.2)

/-- `ChatServer._broadcast_user_list`: one user-list packet (one
`message_id`), reliably sent to every client, with no callbacks. -/
def broadcast_user_list (s : SState) (t : ℤ) (newId : String) : SState × List Ev :=
  let pkt := create_user_list newId t s.clients
  let r := foldSends t pkt (fun _ => none) (fun _ => none) s.rudp s.clients
  ({ s with rudp := r.1 }, r.2)

/-- `ChatServer._handle_join` (after the dispatch-level touch): a
duplicate username returns early — before the ACK is sent; otherwise
register, ACK (untracked), broadcast the user list, notify the others. -/
def handle_join (s : SState) (t : ℤ) (p : Packet) (addr : Addr) (ids : ℕ → String) :
    SState × List Ev :=
  if alContains s.clients p.sender then (s, [])
  else
    let s1 := { s with clients := alUpdate s.clients p.sender addr,
                       client_last_seen := alUpdate s.client_last_seen p.sender t }
    let ackEv := Ev.sent (create_ack (ids 0) t p.message_id) addr
    let r1 := broadcast_user_list s1 t (ids 1)
    let r2 := broadcast_message r1.1 t
      (create_server_message (ids 2) t (p.sender ++ " joined the chat")) (some p.sender)
    (r2.1, ackEv :: (r1.2 ++ r2.2))

/-- `ChatServer._handle_leave`: unregister if present, ACK, broadcast the
user list, notify everyone remaining (no exclusion). -/
def handle_leave (s : SState) (t : ℤ) (p : Packet) (addr : Addr) (ids : ℕ → String) :
    SState × List Ev :=
  let s1 := if alContains s.clients p.sender
            then { s with clients := alErase s.clients p.sender,
                          client_last_seen := alErase s.client_last_seen p.sender }
            else s
  let ackEv := Ev.sent (create_ack (ids 0) t p.message_id) addr
  let r1 := broadcast_user_list s1 t (ids 1)
  let r2 := broadcast_message r1.1 t
    (create_server_message (ids 2) t (p.sender ++ " left the chat")) none
  (r2.1, ackEv :: (r1.2 ++ r2.2))

/-- `ChatServer._handle_message`: bump the counter, ACK the sender, then
broadcast the same packet to everyone except the sender. -/
def handle_message (s : SState) (t : ℤ) (p : Packet) (addr : Addr) (ids : ℕ → String) :
    SState × List Ev :=
  let s1 := { s with message_count := s.message_count + 1 }
  let ackEv := Ev.sent (create_ack (ids 0) t p.message_id) addr
  let r := broadcast_message s1 t p (some p.sender)
  (r.1, ackEv :: r.2)

/-- `ChatServer._handle_heartbeat`: ACK only. -/
def handle_heartbeat (s : SState) (t : ℤ) (p : Packet) (addr : Addr)
    (ids : ℕ → String) : SState × List Ev :=
  (s, [Ev.sent (create_ack (ids 0) t p.message_id) addr])

/-- Python renders `None` as the string "None" inside the error text. -/
def recipientStr (p : Packet) : String :=
  match p.recipient with
  | some rc => rc
  | none => "None"

/-- `ChatServer._handle_private_message`: bump the counter, ACK the
sender; forward the SAME packet reliably when the recipient is
registered, else reliably send a synthesized not-online reply (with no
callbacks). -/
def handle_private_message (s : SState) (t : ℤ) (p : Packet) (addr : Addr)
    (ids : ℕ → String) : SState × List Ev :=
  let s1 := { s with message_count := s.message_count + 1 }
  let ackEv := Ev.sent (create_ack (ids 0) t p.message_id) addr
  match p.recipient.bind (fun rc => (alLookup s1.clients rc).map (fun ra => (rc, ra))) with
  | some (rc, ra) =>
    let r := sendReliable s1.rudp t p ra (some (pmAckTag rc)) (some (pmToTag rc))
    ({ s1 with rudp := r.1 }, ackEv :: r.2)
  | none =>
    let errp := create_server_message (ids 1) t
      ("User '" ++ recipientStr p ++ "' is not online")
    let r := sendReliable s1.rudp t errp addr none none
    ({ s1 with rudp := r.1 }, ackEv :: r.2)

/-- `ChatServer._handle_packet`: refresh the sender's last-seen entry for
EVERY inbound packet, then dispatch on the packet kind; kinds without a
branch (USER_LIST, ERROR) get nothing beyond the touch. -/
def handle_packet (s : SState) (t : ℤ) (p : Packet) (addr : Addr)
    (ids : ℕ → String) : SState × List Ev :=
  let s0 := { s with client_last_seen := alUpdate s.client_last_seen p.sender t }
  if p.message_type = msgJOIN then handle_join s0 t p addr ids
  else if p.message_type = msgLEAVE then handle_leave s0 t p addr ids
  else if p.message_type = msgMESSAGE then handle_message s0 t p addr ids
  else if p.message_type = msgPRIVATE then handle_private_message s0 t p addr ids
  else if p.message_type = msgACK then
    let r := handle_ack s0.rudp t p
    ({ s0 with rudp := r.1 }, r.2)
  else if p.message_type = msgHEARTBEAT then handle_heartbeat s0 t p addr ids
  else (s0, [])

/-- Body of the `_heartbeat_checker` loop for one inactive username:
delete its registry entries when present, then broadcast the updated user
list and the timeout notification (to everyone still registered). -/
def evictOne (s : SState) (t : ℤ) (u : String) (ids : ℕ → String) : SState × List Ev :=
  let s1 := if alContains s.clients u
            then { s with clients := alErase s.clients u,
                          client_last_seen := alErase s.client_last_seen u }
            else s
  let r1 := broadcast_user_list s1 t (ids 0)
  let r2 := broadcast_message r1.1 t
    (create_server_message (ids 1) t (u ++ " disconnected (timeout)")) none
  (r2.1, r1.2 ++ r2.2)

/-- The `for username in inactive_users` loop. -/
def evictAll (t : ℤ) : SState → List String → (ℕ → String) → SState × List Ev
  | s, [], _ => (s, [])
  | s, u :: rest, ids =>
    let r1 := evictOne s t u ids
    let r2 := evictAll t r1.1 rest (fun n => ids (n + 2))
    (r2.1, r1.2 ++ r2.2)

/-- One iteration of `ChatServer._heartbeat_checker` at time `t`: collect
the usernames whose last-seen lies more than 60 seconds in the past, then
evict each in turn. -/
def heartbeat_sweep (s : SState) (t : ℤ) (ids : ℕ → String) : SState × List Ev :=
  let inactive := (s.client_last_seen.filter (fun kv => decide (t - kv.2 > 60))).map
    Prod.fst
  evictAll t s inactive ids

theorem sendReliable_events (r : RState) (t : ℤ) (p : Packet) (a : Addr)
    (oa ot : Option Tag) : (sendReliable r t p a oa ot).2 = [Ev.sent p a] := by
  by_cases h : p.message_type = msgACK <;> simp [sendReliable, h]

/-- Claim C6 (counterexample): a duplicate JOIN ("alice" is already
registered) is dropped by `_handle_join`'s early return BEFORE the ACK is
sent: handling it transmits nothing at all, so no ACK goes back to the
source address, contradicting "in all cases". -/
theorem c6_counterexample :
    (handle_packet ⟨[("alice", ("1.1.1.1", 5))], [("alice", 100)], 0, ⟨3, 3, []⟩⟩
      200 ⟨"join", "alice", 200, "j1", "join_request", none⟩ ("1.1.1.1", 5)
      (fun n => "u" ++ toString n)).2 = [] := by
  decide

/-- Claim C6 (amended): for an inbound packet of kind LEAVE, MESSAGE,
PRIVATE_MESSAGE, HEARTBEAT, or a JOIN whose sender is not yet registered,
the server refreshes the sender's last-seen entry and the ACK back to the
packet's source address is the FIRST datagram transmitted while handling
the packet (before any broadcast or forward; for JOIN/LEAVE the registry
mutation happens before the ACK is transmitted). A duplicate JOIN gets no
ACK at all, and kinds with no dispatch branch (USER_LIST, ERROR) get only
the touch; a LEAVE additionally deletes the sender's entries again after
the refresh, so only for the non-deleting kinds is the refreshed
last-seen entry still present afterwards. -/
theorem c6_ack_first_amended (s : SState) (t : ℤ) (p : Packet) (addr : Addr)
    (ids : ℕ → String)
    (hkind : (p.message_type = msgJOIN ∧ alContains s.clients p.sender = false) ∨
             p.message_type = msgLEAVE ∨ p.message_type = msgMESSAGE ∨
             p.message_type = msgPRIVATE ∨ p.message_type = msgHEARTBEAT) :
    (handle_packet s t p addr ids).2.head? =
      some (Ev.sent (create_ack (ids 0) t p.message_id) addr) ∧
    (p.message_type ≠ msgLEAVE →
      alLookup (handle_packet s t p addr ids).1.client_last_seen p.sender = some t) := by
  rcases hkind with ⟨hk, hdup⟩ | hk | hk | hk | hk
  · constructor
    · simp [handle_packet, handle_join, hk, msgJOIN, hdup]
    · intro _
      simp [handle_packet, handle_join, hk, msgJOIN, hdup, broadcast_message,
        broadcast_user_list, alLookup_update_self]
  · refine ⟨?_, fun hne => absurd hk hne⟩
    simp [handle_packet, handle_leave, hk, msgLEAVE, msgJOIN]
  · constructor
    · simp [handle_packet, handle_message, hk, msgMESSAGE, msgJOIN, msgLEAVE,
        broadcast_message]
    · intro _
      simp [handle_packet, handle_message, hk, msgMESSAGE, msgJOIN, msgLEAVE,
        broadcast_message, alLookup_update_self]
  · rcases hrec : p.recipient with _ | rc
    · constructor
      · simp [handle_packet, handle_private_message, hk, msgPRIVATE, msgJOIN,
          msgLEAVE, msgMESSAGE, hrec]
      · intro _
        simp [handle_packet, handle_private_message, hk, msgPRIVATE, msgJOIN,
          msgLEAVE, msgMESSAGE, hrec, alLookup_update_self]
    · rcases hlook : alLookup s.clients rc with _ | ra
      · constructor
        · simp [handle_packet, handle_private_message, hk, msgPRIVATE, msgJOIN,
            msgLEAVE, msgMESSAGE, hrec, hlook]
        · intro _
          simp [handle_packet, handle_private_message, hk, msgPRIVATE, msgJOIN,
            msgLEAVE, msgMESSAGE, hrec, hlook, alLookup_update_self]
      · constructor
        · simp [handle_packet, handle_private_message, hk, msgPRIVATE, msgJOIN,
            msgLEAVE, msgMESSAGE, hrec, hlook]
        · intro _
          simp [handle_packet, handle_private_message, hk, msgPRIVATE, msgJOIN,
            msgLEAVE, msgMESSAGE, hrec, hlook, alLookup_update_self]
  · constructor
    · simp [handle_packet, handle_heartbeat, hk, msgHEARTBEAT, msgJOIN, msgLEAVE,
        msgMESSAGE, msgPRIVATE, msgACK]
    · intro _
      simp [handle_packet, handle_heartbeat, hk, msgHEARTBEAT, msgJOIN, msgLEAVE,
        msgMESSAGE, msgPRIVATE, msgACK, alLookup_update_self]

/-- Closed witness for C6: a HEARTBEAT from "bob". -/
theorem c6_witness :
    (handle_packet ⟨[("bob", ("2.2.2.2", 7))], [("bob", 100)], 0, ⟨3, 3, []⟩⟩
        200 ⟨"heartbeat", "bob", 200, "h1", "heartbeat", none⟩ ("2.2.2.2", 7)
        (fun n => "u" ++ toString n)).2.head? =
      some (Ev.sent (create_ack ((fun n => "u" ++ toString n) 0) 200 "h1")
        ("2.2.2.2", 7)) ∧
    ((⟨"heartbeat", "bob", 200, "h1", "heartbeat", none⟩ : Packet).message_type ≠
        msgLEAVE →
      alLookup (handle_packet ⟨[("bob", ("2.2.2.2", 7))], [("bob", 100)], 0, ⟨3, 3, []⟩⟩
        200 ⟨"heartbeat", "bob", 200, "h1", "heartbeat", none⟩ ("2.2.2.2", 7)
        (fun n => "u" ++ toString n)).1.client_last_seen "bob" = some 200) :=
  c6_ack_first_amended ⟨[("bob", ("2.2.2.2", 7))], [("bob", 100)], 0, ⟨3, 3, []⟩⟩
    200 ⟨"heartbeat", "bob", 200, "h1", "heartbeat", none⟩ ("2.2.2.2", 7)
    (fun n => "u" ++ toString n) (by decide)

theorem foldSends_events (t : ℤ) (p : Packet) (mkA mkT : String → Option Tag)
    (r : RState) (l : List (String × Addr)) :
    (foldSends t p mkA mkT r l).2 = l.map (fun kv => Ev.sent p kv.2) := by
  induction l generalizing r with
  | nil => simp [foldSends]
  | cons kv rest ih =>
    obtain ⟨u, a⟩ := kv
    simp [foldSends, sendReliable_events, ih]

theorem foldSends_lookup_last (t : ℤ) (p : Packet) (mkA mkT : String → Option Tag)
    (hp : p.message_type ≠ msgACK) (u : String) (a : Addr) :
    ∀ (l : List (String × Addr)) (r : RState), l.getLast? = some (u, a) →
    alLookup (foldSends t p mkA mkT r l).1.pending p.message_id =
      some { packet := p, addr := a, sent_time := t, retries := 0,
             on_ack := mkA u, on_timeout := mkT u } := by
  intro l
  induction l with
  | nil => intro r hlast; simp at hlast
  | cons kv rest ih =>
    intro r hlast
    obtain ⟨u1, a1⟩ := kv
    cases rest with
    | nil =>
      simp only [List.getLast?_singleton, Option.some_inj] at hlast
      obtain ⟨h1, h2⟩ := Prod.mk.injEq .. ▸ (by exact hlast : (u1, a1) = (u, a))
      subst h1
      subst h2
      simp [foldSends, sendReliable, hp, alLookup_update_self]
    | cons kv2 rest2 =>
      rw [List.getLast?_cons_cons] at hlast
      simp only [foldSends]
      exact ih _ hlast

/-- Claim C7 (counterexample): registry {A, B, C}; A sends a MESSAGE. The
packet is transmitted to B and to C, but because both reliable sends share
the packet's single `message_id`, only ONE pending entry exists afterwards
— the one for C, the last destination iterated — so B's delivery is not
tracked at all: delivery tracking is not independent per destination. -/
theorem c7_counterexample :
    (handle_packet ⟨[("A", ("10.0.0.1", 1)), ("B", ("10.0.0.2", 2)),
        ("C", ("10.0.0.3", 3))], [], 0, ⟨3, 3, []⟩⟩
      50 ⟨"message", "A", 50, "m1", "hi", none⟩ ("10.0.0.1", 1)
      (fun n => "u" ++ toString n)).1.rudp.pending =
      [("m1", { packet := ⟨"message", "A", 50, "m1", "hi", none⟩,
                addr := ("10.0.0.3", 3), sent_time := 50, retries := 0,
                on_ack := some "on_ack:C", on_timeout := some "on_timeout:C" })] ∧
    (handle_packet ⟨[("A", ("10.0.0.1", 1)), ("B", ("10.0.0.2", 2)),
        ("C", ("10.0.0.3", 3))], [], 0, ⟨3, 3, []⟩⟩
      50 ⟨"message", "A", 50, "m1", "hi", none⟩ ("10.0.0.1", 1)
      (fun n => "u" ++ toString n)).2 =
      [Ev.sent (create_ack "u0" 50 "m1") ("10.0.0.1", 1),
       Ev.sent ⟨"message", "A", 50, "m1", "hi", none⟩ ("10.0.0.2", 2),
       Ev.sent ⟨"message", "A", 50, "m1", "hi", none⟩ ("10.0.0.3", 3)] := by
  constructor
  · decide
  · decide

/-- Claim C7 (amended): on a MESSAGE packet the server increments its
message counter and transmits the packet to exactly the registered peers
other than the sender (in registry order, after the ACK to the source) and
to no unregistered address; but the deliveries are NOT tracked
independently — all reliable sends share the packet's `message_id`, so
afterwards the only pending entry for that id (if any recipient exists) is
the one for the LAST destination iterated, with that destination's
callbacks. -/
theorem c7_message_fanout_amended (s : SState) (t : ℤ) (p : Packet) (addr : Addr)
    (ids : ℕ → String)
    (hk : p.message_type = msgMESSAGE)
    (u : String) (a : Addr)
    (hlast : (s.clients.filter (fun kv => decide (some kv.1 ≠ some p.sender))).getLast? =
      some (u, a)) :
    (handle_packet s t p addr ids).1.message_count = s.message_count + 1 ∧
    (handle_packet s t p addr ids).2 =
      Ev.sent (create_ack (ids 0) t p.message_id) addr ::
        (s.clients.filter (fun kv => decide (some kv.1 ≠ some p.sender))).map
          (fun kv => Ev.sent p kv.2) ∧
    alLookup (handle_packet s t p addr ids).1.rudp.pending p.message_id =
      some { packet := p, addr := a, sent_time := t, retries := 0,
             on_ack := some (bAckTag u), on_timeout := some (bToTag u) } := by
  have hpne : p.message_type ≠ msgACK := by
    rw [hk]
    decide
  refine ⟨?_, ?_, ?_⟩
  · simp [handle_packet, handle_message, hk, msgMESSAGE, msgJOIN, msgLEAVE,
      broadcast_message]
  · simp [handle_packet, handle_message, hk, msgMESSAGE, msgJOIN, msgLEAVE,
      broadcast_message, foldSends_events]
  · simp only [handle_packet, handle_message, hk, msgMESSAGE, msgJOIN, msgLEAVE,
      broadcast_message]
    simp only [show ("message" = "join") = False by simp,
      show ("message" = "leave") = False by simp, if_false, eq_self_iff_true, if_true]
    exact foldSends_lookup_last t p _ _ hpne u a _ _ hlast

/-- Closed witness for C7: registry {A, B, C}, A broadcasts; C is the
last destination and the only tracked one. -/
theorem c7_witness :
    (handle_packet ⟨[("A", ("10.0.0.1", 1)), ("B", ("10.0.0.2", 2)),
        ("C", ("10.0.0.3", 3))], [], 0, ⟨3, 3, []⟩⟩
      50 ⟨"message", "A", 50, "m1", "hi", none⟩ ("10.0.0.1", 1)
      (fun n => "u" ++ toString n)).1.message_count = 0 + 1 ∧
    (handle_packet ⟨[("A", ("10.0.0.1", 1)), ("B", ("10.0.0.2", 2)),
        ("C", ("10.0.0.3", 3))], [], 0, ⟨3, 3, []⟩⟩
      50 ⟨"message", "A", 50, "m1", "hi", none⟩ ("10.0.0.1", 1)
      (fun n => "u" ++ toString n)).2 =
      Ev.sent (create_ack ((fun n => "u" ++ toString n) 0) 50 "m1") ("10.0.0.1", 1) ::
        (([("A", ("10.0.0.1", 1)), ("B", ("10.0.0.2", 2)),
           ("C", ("10.0.0.3", 3))].filter
            (fun kv => decide (some kv.1 ≠ some "A"))).map
          (fun kv => Ev.sent ⟨"message", "A", 50, "m1", "hi", none⟩ kv.2)) ∧
    alLookup (handle_packet ⟨[("A", ("10.0.0.1", 1)), ("B", ("10.0.0.2", 2)),
        ("C", ("10.0.0.3", 3))], [], 0, ⟨3, 3, []⟩⟩
      50 ⟨"message", "A", 50, "m1", "hi", none⟩ ("10.0.0.1", 1)
      (fun n => "u" ++ toString n)).1.rudp.pending "m1" =
      some { packet := ⟨"message", "A", 50, "m1", "hi", none⟩,
             addr := ("10.0.0.3", 3), sent_time := 50, retries := 0,
             on_ack := some (bAckTag "C"), on_timeout := some (bToTag "C") } :=
  c7_message_fanout_amended
    ⟨[("A", ("10.0.0.1", 1)), ("B", ("10.0.0.2", 2)), ("C", ("10.0.0.3", 3))],
     [], 0, ⟨3, 3, []⟩⟩
    50 ⟨"message", "A", 50, "m1", "hi", none⟩ ("10.0.0.1", 1)
    (fun n => "u" ++ toString n) (by decide) "C" ("10.0.0.3", 3) (by decide)

/-- Claim C8 (counterexample): "alice" is registered with last-seen 100; a
duplicate JOIN from alice at time 200 leaves the registry alone but DOES
change server state: the dispatch-level touch rewrites her last-seen entry
to 200 before `_handle_join` bails out, so the state is not "exactly as it
was before the packet arrived". -/
theorem c8_counterexample :
    (handle_packet ⟨[("alice", ("1.1.1.1", 5))], [("alice", 100)], 0, ⟨3, 3, []⟩⟩
        200 ⟨"join", "alice", 200, "j1", "join_request", none⟩ ("1.1.1.1", 5)
        (fun n => "u" ++ toString n)).1 =
      ⟨[("alice", ("1.1.1.1", 5))], [("alice", 200)], 0, ⟨3, 3, []⟩⟩ ∧
    (⟨[("alice", ("1.1.1.1", 5))], [("alice", 200)], 0, ⟨3, 3, []⟩⟩ : SState) ≠
      ⟨[("alice", ("1.1.1.1", 5))], [("alice", 100)], 0, ⟨3, 3, []⟩⟩ := by
  constructor
  · decide
  · decide

/-- Claim C8 (amended): a JOIN for an already-registered identity
produces no broadcast, no transmission of any kind, and leaves the
registry, the message counter and the pending-send state untouched; the
ONLY state change is the sender's last-seen refresh that `_handle_packet`
performs for every inbound packet before dispatch. -/
theorem c8_duplicate_join_amended (s : SState) (t : ℤ) (p : Packet) (addr : Addr)
    (ids : ℕ → String)
    (hj : p.message_type = msgJOIN)
    (hdup : alContains s.clients p.sender = true) :
    handle_packet s t p addr ids =
      ({ s with client_last_seen := alUpdate s.client_last_seen p.sender t }, []) := by
  simp [handle_packet, handle_join, hj, msgJOIN, hdup]

/-- Closed witness for C8 (amended) at the same concrete state. -/
theorem c8_witness :
    handle_packet ⟨[("alice", ("1.1.1.1", 5))], [("alice", 100)], 0, ⟨3, 3, []⟩⟩
        200 ⟨"join", "alice", 200, "j1", "join_request", none⟩ ("1.1.1.1", 5)
        (fun n => "u" ++ toString n) =
      ({ (⟨[("alice", ("1.1.1.1", 5))], [("alice", 100)], 0, ⟨3, 3, []⟩⟩ : SState) with
          client_last_seen := alUpdate [("alice", 100)] "alice" 200 }, []) :=
  c8_duplicate_join_amended
    ⟨[("alice", ("1.1.1.1", 5))], [("alice", 100)], 0, ⟨3, 3, []⟩⟩
    200 ⟨"join", "alice", 200, "j1", "join_request", none⟩ ("1.1.1.1", 5)
    (fun n => "u" ++ toString n) (by decide) (by decide)

theorem alContains_of_lookup {α : Type} {l : List (String × α)} {k : String} {v : α}
    (h : alLookup l k = some v) : alContains l k = true := by
  have hm := alLookup_mem h
  simp only [alContains, List.any_eq_true]
  exact ⟨(k, v), hm, by simp⟩

theorem alLookup_of_mem_nodup {α : Type} :
    ∀ {l : List (String × α)}, keysNodup l → ∀ {kv : String × α}, kv ∈ l →
    alLookup l kv.1 = some kv.2 := by
  intro l
  induction l with
  | nil =>
    intro _ kv hm
    simp at hm
  | cons hd rest ih =>
    intro hN kv hm
    obtain ⟨a, b⟩ := hd
    rcases List.mem_cons.mp hm with hm | hm
    · subst hm
      show alLookup ((a, b) :: rest) a = some b
      rw [alLookup_cons, if_pos rfl]
    · have hk : a ≠ kv.1 := by
        intro hh
        exact (by simpa [keysNodup] using (List.nodup_cons.mp hN).1 :
          a ∉ rest.map Prod.fst) (List.mem_map.mpr ⟨kv, hm, hh.symm⟩)
      rw [alLookup_cons, if_neg hk]
      exact ih (by simpa [keysNodup] using (List.nodup_cons.mp hN).2) hm

theorem filter_stale_single (t : ℤ) (u : String) (tu : ℤ) :
    ∀ (l : List (String × ℤ)), keysNodup l → alLookup l u = some tu →
    t - tu > 60 → (∀ kv ∈ l, kv.1 ≠ u → ¬(t - kv.2 > 60)) →
    l.filter (fun kv => decide (t - kv.2 > 60)) = [(u, tu)] := by
  intro l
  induction l with
  | nil =>
    intro _ hl
    simp [alLookup] at hl
  | cons kv rest ih =>
    intro hN hl hstale honly
    obtain ⟨a, b⟩ := kv
    rw [alLookup_cons] at hl
    by_cases hk : a = u
    · rw [if_pos hk] at hl
      injection hl with hl
      subst hl
      subst hk
      rw [List.filter_cons, if_pos (by simpa using hstale)]
      have hrest : rest.filter (fun kv => decide (t - kv.2 > 60)) = [] := by
        rw [List.filter_eq_nil_iff]
        intro kv' hm
        have hku : kv'.1 ≠ a := by
          intro hh
          exact (by simpa [keysNodup] using (List.nodup_cons.mp hN).1 :
            a ∉ rest.map Prod.fst) (List.mem_map.mpr ⟨kv', hm, hh⟩)
        simpa using honly kv' (List.mem_cons_of_mem (a, b) hm) hku
      rw [hrest]
    · rw [if_neg hk] at hl
      have hns : ¬(t - b > 60) :=
        honly (a, b) (List.mem_cons_self (a, b) rest) hk
      rw [List.filter_cons,
        if_neg (by simpa using hns : ¬ (decide (t - b > 60) = true))]
      exact ih (by simpa [keysNodup] using (List.nodup_cons.mp hN).2) hl hstale
        (fun kv' hm hku => honly kv' (List.mem_cons_of_mem (a, b) hm) hku)

theorem filter_ne_none {l : List (String × Addr)} :
    l.filter (fun kv => decide (some kv.1 ≠ (none : Option String))) = l := by
  induction l with
  | nil => rfl
  | cons kv rest ih => simp [List.filter_cons, ih]

theorem evictOne_clients (s : SState) (t : ℤ) (u : String) (ids : ℕ → String)
    (hc : alContains s.clients u = true) :
    (evictOne s t u ids).1.clients = alErase s.clients u ∧
    (evictOne s t u ids).1.client_last_seen = alErase s.client_last_seen u := by
  simp [evictOne, hc, broadcast_user_list, broadcast_message]

theorem evictAll_preserves (t : ℤ) (u : String) :
    ∀ (us : List String) (s : SState) (ids : ℕ → String), u ∉ us →
    alLookup (evictAll t s us ids).1.clients u = alLookup s.clients u := by
  intro us
  induction us with
  | nil =>
    intro s ids _
    rfl
  | cons v rest ih =>
    intro s ids hu
    have hvu : v ≠ u := fun h => hu (h ▸ List.mem_cons_self v rest)
    show alLookup (evictAll t (evictOne s t v ids).1 rest (fun n => ids (n + 2))).1.clients
        u = alLookup s.clients u
    rw [ih _ _ (fun h => hu (List.mem_cons_of_mem v h))]
    by_cases hc : alContains s.clients v = true
    · rw [(evictOne_clients s t v ids hc).1]
      exact alLookup_erase_ne _ _ _ (Ne.symm hvu)
    · simp [evictOne, hc, broadcast_user_list, broadcast_message]

/-- Claim C9: a registered peer whose last-seen lies more than 60 seconds
before the sweep time (here the only such peer, so that "the remaining
peers" is exact) is removed from the registry and the last-seen map by
the next liveness sweep; the sweep sends the updated user list and a
"disconnected (timeout)" notification to every remaining peer; and any
packet received from a peer before the threshold refreshes its last-seen
(shown for HEARTBEAT), so a sweep within 60 seconds of it leaves the peer
registered. -/
theorem c9_liveness_eviction (s : SState) (t : ℤ) (u : String) (au : Addr)
    (tu : ℤ) (ids : ℕ → String)
    (hcu : alLookup s.clients u = some au)
    (hlu : alLookup s.client_last_seen u = some tu)
    (hstale : t - tu > 60)
    (honly : ∀ kv ∈ s.client_last_seen, kv.1 ≠ u → ¬(t - kv.2 > 60))
    (hNl : keysNodup s.client_last_seen) :
    alLookup (heartbeat_sweep s t ids).1.clients u = none ∧
    alLookup (heartbeat_sweep s t ids).1.client_last_seen u = none ∧
    (heartbeat_sweep s t ids).1.clients = alErase s.clients u ∧
    (heartbeat_sweep s t ids).2 =
      (alErase s.clients u).map (fun kv =>
        Ev.sent (create_user_list (ids 0) t (alErase s.clients u)) kv.2) ++
      (alErase s.clients u).map (fun kv =>
        Ev.sent (create_server_message (ids 1) t (u ++ " disconnected (timeout)"))
          kv.2) ∧
    (∀ (s2 : SState) (t2 t3 : ℤ) (q : Packet) (qa : Addr) (ids3 ids4 : ℕ → String)
        (au2 : Addr),
      q.sender = u → q.message_type = msgHEARTBEAT →
      alLookup s2.clients u = some au2 →
      keysNodup s2.client_last_seen →
      t3 - t2 ≤ 60 →
      alLookup (heartbeat_sweep (handle_packet s2 t2 q qa ids3).1 t3 ids4).1.clients
        u = some au2) := by
  have hcont : alContains s.clients u = true := alContains_of_lookup hcu
  have hfil := filter_stale_single t u tu s.client_last_seen hNl hlu hstale honly
  have hrun : heartbeat_sweep s t ids =
      ((evictOne s t u ids).1, (evictOne s t u ids).2 ++ []) := by
    simp only [heartbeat_sweep, hfil, List.map_cons, List.map_nil, evictAll]
  have hstate := evictOne_clients s t u ids hcont
  have hevs : (evictOne s t u ids).2 =
      (alErase s.clients u).map (fun kv =>
        Ev.sent (create_user_list (ids 0) t (alErase s.clients u)) kv.2) ++
      (alErase s.clients u).map (fun kv =>
        Ev.sent (create_server_message (ids 1) t (u ++ " disconnected (timeout)"))
          kv.2) := by
    simp [evictOne, hcont, broadcast_user_list, broadcast_message,
      foldSends_events, filter_ne_none]
  refine ⟨?_, ?_, ?_, ?_, ?_⟩
  · rw [hrun]
    simp only [hstate.1]
    exact alLookup_erase_self _ _
  · rw [hrun]
    simp only [hstate.2]
    exact alLookup_erase_self _ _
  · rw [hrun]
    exact hstate.1
  · rw [hrun]
    simpa using hevs
  · intro s2 t2 t3 q qa ids3 ids4 au2 hqs hqt hcl2 hN2 hfresh
    have hhp : (handle_packet s2 t2 q qa ids3).1 =
        { s2 with client_last_seen := alUpdate s2.client_last_seen q.sender t2 } := by
      simp [handle_packet, handle_heartbeat, hqt, msgHEARTBEAT, msgJOIN, msgLEAVE,
        msgMESSAGE, msgPRIVATE, msgACK]
    rw [hhp, hqs]
    show alLookup (evictAll t3
      { s2 with client_last_seen := alUpdate s2.client_last_seen u t2 }
      (((alUpdate s2.client_last_seen u t2).filter
        (fun kv => decide (t3 - kv.2 > 60))).map Prod.fst) ids4).1.clients u = some au2
    have hN' : keysNodup (alUpdate s2.client_last_seen u t2) :=
      keysNodup_alUpdate _ _ hN2
    have hnotin : u ∉ ((alUpdate s2.client_last_seen u t2).filter
        (fun kv => decide (t3 - kv.2 > 60))).map Prod.fst := by
      intro hmem
      simp only [List.mem_map, List.mem_filter] at hmem
      obtain ⟨kv, ⟨hm, hst⟩, hk⟩ := hmem
      have hlk := alLookup_of_mem_nodup hN' hm
      rw [hk, alLookup_update_self] at hlk
      injection hlk with hlk
      rw [← hlk] at hst
      simp only [decide_eq_true_eq] at hst
      omega
    rw [evictAll_preserves t3 u _ _ ids4 hnotin]
    exact hcl2

/-- Closed witness for C9: registry {alice, bob}; bob last seen at time
10, alice at time 100; the sweep at time 100 evicts bob and notifies
alice; and a heartbeat from bob at time 90 followed by a sweep at time
100 would have kept him registered. -/
theorem c9_witness :
    alLookup (heartbeat_sweep ⟨[("alice", ("1.1.1.1", 5)), ("bob", ("2.2.2.2", 7))],
        [("alice", 100), ("bob", 10)], 0, ⟨3, 3, []⟩⟩ 100
        (fun n => "u" ++ toString n)).1.clients "bob" = none ∧
    alLookup (heartbeat_sweep ⟨[("alice", ("1.1.1.1", 5)), ("bob", ("2.2.2.2", 7))],
        [("alice", 100), ("bob", 10)], 0, ⟨3, 3, []⟩⟩ 100
        (fun n => "u" ++ toString n)).1.client_last_seen "bob" = none ∧
    (heartbeat_sweep ⟨[("alice", ("1.1.1.1", 5)), ("bob", ("2.2.2.2", 7))],
        [("alice", 100), ("bob", 10)], 0, ⟨3, 3, []⟩⟩ 100
        (fun n => "u" ++ toString n)).1.clients =
      alErase [("alice", ("1.1.1.1", 5)), ("bob", ("2.2.2.2", 7))] "bob" ∧
    (heartbeat_sweep ⟨[("alice", ("1.1.1.1", 5)), ("bob", ("2.2.2.2", 7))],
        [("alice", 100), ("bob", 10)], 0, ⟨3, 3, []⟩⟩ 100
        (fun n => "u" ++ toString n)).2 =
      (alErase [("alice", ("1.1.1.1", 5)), ("bob", ("2.2.2.2", 7))] "bob").map
        (fun kv => Ev.sent (create_user_list ((fun n => "u" ++ toString n) 0) 100
          (alErase [("alice", ("1.1.1.1", 5)), ("bob", ("2.2.2.2", 7))] "bob")) kv.2) ++
      (alErase [("alice", ("1.1.1.1", 5)), ("bob", ("2.2.2.2", 7))] "bob").map
        (fun kv => Ev.sent (create_server_message ((fun n => "u" ++ toString n) 1) 100
          ("bob" ++ " disconnected (timeout)")) kv.2) ∧
    (∀ (s2 : SState) (t2 t3 : ℤ) (q : Packet) (qa : Addr) (ids3 ids4 : ℕ → String)
        (au2 : Addr),
      q.sender = "bob" → q.message_type = msgHEARTBEAT →
      alLookup s2.clients "bob" = some au2 →
      keysNodup s2.client_last_seen →
      t3 - t2 ≤ 60 →
      alLookup (heartbeat_sweep (handle_packet s2 t2 q qa ids3).1 t3 ids4).1.clients
        "bob" = some au2) :=
  c9_liveness_eviction
    ⟨[("alice", ("1.1.1.1", 5)), ("bob", ("2.2.2.2", 7))],
     [("alice", 100), ("bob", 10)], 0, ⟨3, 3, []⟩⟩
    100 "bob" ("2.2.2.2", 7) 10 (fun n => "u" ++ toString n)
    (by decide) (by decide) (by decide) (by decide) (by simp [keysNodup])
